import Mathlib

/-!
Verification of the school-planner client state engine (`src/src/App.tsx`)
and the serverless normalization (`src/api/state.go`).

The document model, the entity operations (saveTask, deleteTask, addCourse,
deleteCourse, addGrade, deleteGrade), the completion flow (beginCompleteTask,
applyTaskDone, confirmComplete), the grade aggregation (gradeStats), the
debounced save effect, and both load/PUT normalizations are embedded as
executable Lean functions.  JavaScript numbers are modelled as `ℚ`, JS
`undefined`-able fields as `Option`, and JSON values (where the code is
dynamically typed) as a small `JVal` type.
-/

namespace Planner

inductive Priority
  | low
  | medium
  | high
deriving DecidableEq, Repr, Inhabited

structure Course where
  id : String
  name : String
  color : String
  credits : Option ℚ
deriving DecidableEq, Repr

structure Task where
  id : String
  title : String
  courseId : Option String
  dueISO : Option String
  priority : Priority
  notes : Option String
  done : Bool
  createdISO : String
  tags : Option (List String)
  estimateMinutes : Option ℚ
  pointsPossible : Option ℚ
  pointsEarned : Option ℚ
  completedISO : Option String
deriving DecidableEq, Repr

structure GradeItem where
  id : String
  courseId : Option String
  name : String
  scoreEarned : ℚ
  scoreTotal : ℚ
  weight : Option ℚ
  dueISO : Option String
  taskId : Option String
  createdISO : Option String
deriving DecidableEq, Repr

structure Settings where
  semesterName : String
  weekStartsOn : ℚ
  theme : Option String
  defaultView : Option String
deriving DecidableEq, Repr

structure AppState where
  version : ℤ
  courses : List Course
  tasks : List Task
  grades : List GradeItem
  settings : Settings
deriving DecidableEq, Repr

/-- `DEFAULT_STATE` from App.tsx. -/
def DEFAULT_STATE : AppState :=
  { version := 2
    courses := []
    tasks := []
    grades := []
    settings :=
      { semesterName := "Semester"
        weekStartsOn := 1
        theme := some "light"
        defaultView := some "dashboard" } }

/-- `clamp(n, a, b) = Math.max(a, Math.min(b, n))` from src/lib/date.ts. -/
def clamp (n a b : ℚ) : ℚ := max a (min b n)

/-- JS `String.prototype.trim()`, modelled character-structurally so that it
computes by kernel reduction. -/
def jsTrim (s : String) : String :=
  ⟨((s.data.dropWhile Char.isWhitespace).reverse.dropWhile Char.isWhitespace).reverse⟩

/-- JS `Math.round`: rounds half toward positive infinity, `⌊x + 1/2⌋`. -/
def jsRound (q : ℚ) : ℤ := ⌊q + 1 / 2⌋

/-- `Math.round(x * 10) / 10` — round to one decimal place, as in confirmComplete. -/
def round1 (q : ℚ) : ℚ := (jsRound (q * 10) : ℚ) / 10

/-- `safeNum` from App.tsx: `Number(v)` if finite, else 0.  The parse result is
modelled as `Option ℚ`, `none` standing for a non-finite parse. -/
def safeNum (v : Option ℚ) : ℚ := v.getD 0

/-- The grade item written by `applyTaskDone` / the edit branch of `saveTask`
(object literal with no `weight` key). -/
def derivedItem (itemId : String) (tid : String) (courseId : Option String) (name : String)
    (pe pp : ℚ) (dueISO : Option String) (createdISO : String) : GradeItem :=
  { id := itemId
    courseId := courseId
    name := name
    scoreEarned := clamp pe 0 pp
    scoreTotal := pp
    weight := none
    dueISO := dueISO
    taskId := some tid
    createdISO := some createdISO }

/-- The `ptsEarned` expression of `applyTaskDone`: the explicit `earned`
argument, else the task's recorded `pointsEarned`, else full credit
`clamp(pointsPossible, 0, 999999)`, else undefined. -/
def donePtsEarned (earned taskPe taskPp : Option ℚ) : Option ℚ :=
  match earned, taskPe, taskPp with
  | some e, _, _ => some e
  | none, some pe, _ => some pe
  | none, none, some pp => some (clamp pp 0 999999)
  | none, none, none => none

/-- `applyTaskDone(id, done, earned?)` from App.tsx (lines 523–573).
`nowISO` stands for `new Date().toISOString()` and `gradeId` for `uid("grade")`. -/
def applyTaskDone (s : AppState) (id : String) (done : Bool) (earned : Option ℚ)
    (nowISO gradeId : String) : AppState :=
  match s.tasks.find? (fun x => x.id = id) with
  | none => s
  | some t =>
    if done = false then
      { s with
        tasks := s.tasks.map (fun x =>
          if x.id = id then { x with done := false, pointsEarned := none, completedISO := none }
          else x)
        grades := s.grades.filter (fun g => ¬ g.taskId = some id) }
    else
      let ptsPossible := t.pointsPossible
      let ptsEarned : Option ℚ := donePtsEarned earned t.pointsEarned ptsPossible
      let nextTasks := s.tasks.map (fun x =>
        if x.id = id then { x with done := true, pointsEarned := ptsEarned, completedISO := some nowISO }
        else x)
      let nextGrades :=
        match ptsPossible, ptsEarned with
        | some pp, some pe =>
          if 0 < pp then
            match s.grades.find? (fun g => g.taskId = some id) with
            | some existing =>
              s.grades.map (fun g =>
                if g.taskId = some id then
                  derivedItem existing.id id t.courseId t.title pe pp t.dueISO
    (existing.createdISO.getD nowISO)
                else g)
            | none =>
              derivedItem gradeId id t.courseId t.title pe pp t.dueISO nowISO :: s.grades
          else s.grades
        | _, _ => s.grades
      { s with tasks := nextTasks, grades := nextGrades }

/-- `confirmComplete` from App.tsx (lines 575–586); `completeEarned` is passed as
the numeric parse of the entered string (`none` for a non-finite `Number(...)`). -/
def confirmComplete (s : AppState) (completeTaskId : String) (completeEarned : Option ℚ)
    (nowISO gradeId : String) : AppState :=
  match s.tasks.find? (fun x => x.id = completeTaskId) with
  | none => s
  | some t =>
    let total := t.pointsPossible.getD 0
    let earned := clamp (round1 (safeNum completeEarned)) 0 total
    applyTaskDone s completeTaskId true (some earned) nowISO gradeId

/-- `beginCompleteTask` from App.tsx: completes directly (no grade prompt) when
`pointsPossible` is undefined or ≤ 0; otherwise it only opens the modal, i.e.
leaves the document unchanged. -/
def beginCompleteTask (s : AppState) (id : String) (nowISO gradeId : String) : AppState :=
  match s.tasks.find? (fun x => x.id = id) with
  | none => s
  | some t =>
    match t.pointsPossible with
    | none => applyTaskDone s id true none nowISO gradeId
    | some pp =>
      if pp ≤ 0 then applyTaskDone s id true none nowISO gradeId else s

/-- The new-task branch of `saveTask` (App.tsx lines 489–504).  `estRaw`/`ptsRaw`
are the `parseInt(x) || 0` results, `none` for an empty field; `notes`, `tags`
and the course selection arrive already trimmed/parsed as in the form handlers. -/
def saveTaskNew (s : AppState) (taskId taskTitle : String) (taskCourse : Option String)
    (dueISO : Option String) (priority : Priority) (notes : Option String)
    (tags : Option (List String)) (estRaw ptsRaw : Option ℤ) (nowISO : String) : AppState :=
  if jsTrim taskTitle = "" then s
  else
    let est := estRaw.map (fun n : ℤ => clamp (n : ℚ) 0 9999)
    let pts := ptsRaw.map (fun n : ℤ => clamp (n : ℚ) 0 999999)
    let newTask : Task :=
      { id := taskId
        title := jsTrim taskTitle
        courseId := taskCourse
        dueISO := dueISO
        priority := priority
        notes := notes
        done := false
        createdISO := nowISO
        tags := tags
        estimateMinutes := est
        pointsPossible := pts
        pointsEarned := none
        completedISO := none }
    { s with tasks := newTask :: s.tasks }

/-- The `nextEarned` expression of the edit branch of `saveTask`: when both the
old `pointsEarned` and the new points value are numbers, the old earned score
clamped to the new ceiling; otherwise the old `pointsEarned` unchanged. -/
def editNextEarned (taskPe pts : Option ℚ) : Option ℚ :=
  match taskPe, pts with
  | some pe, some p => some (clamp pe 0 p)
  | pe, _ => pe

/-- The per-task update applied by the edit branch of `saveTask` (App.tsx
lines 434–458): new field values plus the `pointsEarned` clamp-down. -/
def updateTaskFields (taskTitle : String) (taskCourse : Option String) (dueISO : Option String)
    (priority : Priority) (notes : Option String) (tags : Option (List String))
    (est pts : Option ℚ) (t : Task) : Task :=
  let nextEarned : Option ℚ := editNextEarned t.pointsEarned pts
  { t with
    title := jsTrim taskTitle
    courseId := taskCourse
    dueISO := dueISO
    priority := priority
    notes := notes
    tags := tags
    estimateMinutes := est
    pointsPossible := pts
    pointsEarned := nextEarned }

/-- The edit branch of `saveTask` (App.tsx lines 434–487), including the
re-derivation of the linked grade item when the edited task is done.  The JS
`updated` variable holds the last matching task, modelled by
`(filter …).getLast?`. -/
def saveTaskEdit (s : AppState) (editingTaskId taskTitle : String) (taskCourse : Option String)
    (dueISO : Option String) (priority : Priority) (notes : Option String)
    (tags : Option (List String)) (estRaw ptsRaw : Option ℤ) (gradeId nowISO : String) : AppState :=
  if jsTrim taskTitle = "" then s
  else
    let est := estRaw.map (fun n : ℤ => clamp (n : ℚ) 0 9999)
    let pts := ptsRaw.map (fun n : ℤ => clamp (n : ℚ) 0 999999)
    let upd := updateTaskFields taskTitle taskCourse dueISO priority notes tags est pts
    let nextTasks := s.tasks.map (fun t => if t.id = editingTaskId then upd t else t)
    match (s.tasks.filter (fun t => t.id = editingTaskId)).getLast? with
    | none => { s with tasks := nextTasks }
    | some t0 =>
      let updated := upd t0
      let nextGrades :=
        if updated.done then
          match updated.pointsPossible, updated.pointsEarned with
          | some pp, some pe =>
            if 0 < pp then
              match s.grades.find? (fun g => g.taskId = some editingTaskId) with
              | some existing =>
                s.grades.map (fun g =>
                  if g.taskId = some editingTaskId then
                    derivedItem existing.id editingTaskId updated.courseId updated.title pe pp
                      updated.dueISO (existing.createdISO.getD nowISO)
                  else g)
              | none =>
                derivedItem gradeId editingTaskId updated.courseId updated.title pe pp
                  updated.dueISO nowISO :: s.grades
            else s.grades.filter (fun g => ¬ g.taskId = some editingTaskId)
          | _, _ => s.grades.filter (fun g => ¬ g.taskId = some editingTaskId)
        else s.grades
      { s with tasks := nextTasks, grades := nextGrades }

/-- `deleteTask` from App.tsx (lines 595–600). -/
def deleteTask (s : AppState) (id : String) : AppState :=
  { s with
    tasks := s.tasks.filter (fun t => ¬ t.id = id)
    grades := s.grades.filter (fun g => ¬ g.taskId = some id) }

/-- `addCourse` from App.tsx (lines 604–619); `creditsRaw` is the
`parseInt(x) || 0` result, `none` for an empty field. -/
def addCourse (s : AppState) (courseId courseNameInput courseColor : String)
    (creditsRaw : Option ℤ) : AppState :=
  if jsTrim courseNameInput = "" then s
  else
    let credits := creditsRaw.map (fun n : ℤ => clamp (n : ℚ) 0 30)
    { s with
      courses :=
        { id := courseId, name := jsTrim courseNameInput, color := courseColor,
          credits := credits } :: s.courses }

/-- `deleteCourse` from App.tsx (lines 621–628). -/
def deleteCourse (s : AppState) (id : String) : AppState :=
  { s with
    courses := s.courses.filter (fun c => ¬ c.id = id)
    tasks := s.tasks.map (fun t => if t.courseId = some id then { t with courseId := none } else t)
    grades := s.grades.map (fun g => if g.courseId = some id then { g with courseId := none } else g) }

/-- `addGrade` from App.tsx (lines 630–656); `earned`/`total` are the
`Number(...)` parses (`none` for non-finite), `weightRaw` the parsed weight. -/
def addGrade (s : AppState) (gradeId gradeName : String) (gradeCourse : Option String)
    (earned total : Option ℚ) (weightRaw : Option ℚ) (dueISO : Option String)
    (nowISO : String) : AppState :=
  if jsTrim gradeName = "" then s
  else
    match earned, total with
    | some e, some tt =>
      if tt ≤ 0 then s
      else
        let w := weightRaw.map (fun x => clamp x 0 100)
        { s with
          grades :=
            { id := gradeId, courseId := gradeCourse, name := jsTrim gradeName,
              scoreEarned := e, scoreTotal := tt, weight := w, dueISO := dueISO,
              taskId := none, createdISO := some nowISO } :: s.grades }
    | _, _ => s

/-- `deleteGrade` from App.tsx (lines 658–660). -/
def deleteGrade (s : AppState) (id : String) : AppState :=
  { s with grades := s.grades.filter (fun g => ¬ g.id = id) }

/-! ### Grade aggregation (`gradeStats`, App.tsx lines 371–390) -/

/-- The bucket key: `g.courseId ?? "none"`. -/
def gradeKey (g : GradeItem) : String := g.courseId.getD "none"

structure CourseAgg where
  earned : ℚ
  total : ℚ
  weightedEarned : ℚ
  weightedTotal : ℚ
deriving DecidableEq, Repr

/-- One loop iteration of `gradeStats` on the bucket `byCourse[cid]`. -/
def aggAdd (a : CourseAgg) (g : GradeItem) : CourseAgg :=
  let e := g.scoreEarned
  let tt := g.scoreTotal
  let a1 := { a with earned := a.earned + e, total := a.total + tt }
  match g.weight with
  | some w =>
    { a1 with
      weightedEarned := a1.weightedEarned + e / max 1 tt * w
      weightedTotal := a1.weightedTotal + w }
  | none => a1

/-- The aggregate `gradeStats` computes for one course bucket: the loop over
`state.grades` touches `byCourse[key]` exactly at the items whose key matches,
in order. -/
def gradeStatsFor (grades : List GradeItem) (key : String) : CourseAgg :=
  (grades.filter (fun g => gradeKey g = key)).foldl aggAdd ⟨0, 0, 0, 0⟩

/-! ### Server-side PUT normalization (`src/api/state.go`, lines 89–127) -/

/-- A JSON value, distinguished only as far as the dynamic checks in the code
need (`float64` type assertion / `typeof x === "number"`). -/
inductive JVal
  | num (q : ℚ)
  | str (s : String)
  | other
deriving DecidableEq, Repr

/-- The decoded `settings` map: the four known keys plus preserved extra keys. -/
structure GoSettings where
  semesterName : Option JVal
  weekStartsOn : Option JVal
  theme : Option JVal
  defaultView : Option JVal
  extra : List (String × JVal)
deriving DecidableEq, Repr

/-- The decoded `AppState` Go struct: `nil` slices/map decode from missing or
null JSON fields (`Option`), a missing `version` decodes to `0`. -/
structure GoState where
  version : ℤ
  courses : Option (List JVal)
  tasks : Option (List JVal)
  grades : Option (List JVal)
  settings : Option GoSettings
deriving DecidableEq, Repr

/-- Go `int(f)` on a float64: truncation toward zero. -/
def goTrunc (q : ℚ) : ℤ := if 0 ≤ q then ⌊q⌋ else ⌈q⌉

/-- The `weekStartsOn` branch of the PUT handler: a non-number becomes `1`, a
number is replaced by `1` only when `int(f)` is neither 0 nor 1. -/
def goWeekStartsOn (ws : Option JVal) : JVal :=
  match ws with
  | some (.num q) => if goTrunc q ≠ 0 ∧ goTrunc q ≠ 1 then .num 1 else .num q
  | some _ => .num 1
  | none => .num 1

/-- The normalization the PUT handler applies before storing (state.go 89–127). -/
def goNormalize (st : GoState) : GoState :=
  let version := if st.version = 0 then 1 else st.version
  let settings := st.settings.getD ⟨none, none, none, none, []⟩
  { version := version
    courses := some (st.courses.getD [])
    tasks := some (st.tasks.getD [])
    grades := some (st.grades.getD [])
    settings := some
      { semesterName := some (settings.semesterName.getD (.str "Semester"))
        weekStartsOn := some (goWeekStartsOn settings.weekStartsOn)
        theme := some (settings.theme.getD (.str "light"))
        defaultView := some (settings.defaultView.getD (.str "dashboard"))
        extra := settings.extra } }

/-! ### Client-side load merge (App.tsx lines 227–241) -/

/-- A JSON field as the client checks it: `Array.isArray(x)` distinguishes an
array from a present non-array and from an absent field. -/
inductive JField
  | arr (elems : List JVal)
  | notArr (v : JVal)
  | missing
deriving DecidableEq, Repr

/-- A possibly-partial settings object from the wire. -/
structure ClientSettingsPart where
  semesterName : Option JVal
  weekStartsOn : Option JVal
  theme : Option JVal
  defaultView : Option JVal
  extra : List (String × JVal)
deriving DecidableEq, Repr

/-- A possibly-partial document from the wire (`Partial<AppState>`). -/
structure ClientStatePart where
  version : Option JVal
  courses : JField
  tasks : JField
  grades : JField
  settings : Option ClientSettingsPart
deriving DecidableEq, Repr

/-- The merged settings: every known field present (untyped values kept as-is). -/
structure ClientSettings where
  semesterName : JVal
  weekStartsOn : JVal
  theme : JVal
  defaultView : JVal
  extra : List (String × JVal)
deriving DecidableEq, Repr

/-- The merged document the load effect builds. -/
structure ClientState where
  version : ℚ
  courses : List JVal
  tasks : List JVal
  grades : List JVal
  settings : ClientSettings
deriving DecidableEq, Repr

/-- The `merged` document of the load effect: spread of the defaults under the
data, with `typeof`/`Array.isArray` guards on `version` and the three arrays and
`{...DEFAULT_STATE.settings, ...(data.settings ?? {})}` for settings. -/
def mergeLoadedState (data : ClientStatePart) : ClientState :=
  { version := match data.version with | some (.num q) => q | _ => 2
    courses := match data.courses with | .arr l => l | _ => []
    tasks := match data.tasks with | .arr l => l | _ => []
    grades := match data.grades with | .arr l => l | _ => []
    settings :=
      let sp := data.settings.getD ⟨none, none, none, none, []⟩
      { semesterName := sp.semesterName.getD (.str "Semester")
        weekStartsOn := sp.weekStartsOn.getD (.num 1)
        theme := sp.theme.getD (.str "light")
        defaultView := sp.defaultView.getD (.str "dashboard")
        extra := sp.extra } }

/-- Re-reading a merged document off the wire: every field is present and the
arrays are arrays, so this is the canonical injection back into
`Partial<AppState>`. -/
def toPart (s : ClientState) : ClientStatePart :=
  { version := some (.num s.version)
    courses := .arr s.courses
    tasks := .arr s.tasks
    grades := .arr s.grades
    settings := some
      ⟨some s.settings.semesterName, some s.settings.weekStartsOn,
       some s.settings.theme, some s.settings.defaultView, s.settings.extra⟩ }

/-! ### The debounced save effect (App.tsx lines 252–280)

Each document mutation re-runs the effect: it clears the pending timer and
schedules a fresh 450 ms timer whose callback PUTs the document captured at
scheduling time.  A timer whose deadline has passed before the next mutation
has already fired and issued its write. -/

def DEBOUNCE_MS : ℕ := 450

structure SyncSched (α : Type) where
  pending : Option (ℕ × α)
  writes : List α
deriving DecidableEq, Repr

/-- The save effect run at time `t` with current document `doc`: a pending
timer that already expired has fired (its write was issued); a still-pending
timer is cleared; then a new timer is scheduled for `t + 450` capturing `doc`. -/
def scheduleSave {α : Type} (st : SyncSched α) (t : ℕ) (doc : α) : SyncSched α :=
  let st1 : SyncSched α :=
    match st.pending with
    | some (ft, pd) =>
      if ft ≤ t then { pending := none, writes := st.writes ++ [pd] }
      else { st with pending := none }
    | none => st
  { st1 with pending := some (t + DEBOUNCE_MS, doc) }

/-- Let the final pending timer expire. -/
def flushTimer {α : Type} (st : SyncSched α) : SyncSched α :=
  match st.pending with
  | some (_, pd) => { pending := none, writes := st.writes ++ [pd] }
  | none => st

/-- The PUT bodies issued for a sequence of mutations `(time, document)`,
processed in time order, once all timers have expired. -/
def runDebounce {α : Type} (muts : List (ℕ × α)) : List α :=
  (flushTimer (muts.foldl (fun st td => scheduleSave st td.1 td.2) ⟨none, []⟩)).writes

/-! ### The operation transition system

One UI-triggered document mutation.  The index `dg` records whether
`deleteGrade` is allowed in the trace.  `uid(...)` results are modelled as
parameters; for a freshly created task the generator's uniqueness is captured
by the two freshness side conditions.  `applyTaskDone` is invoked exactly as
its call sites do: with `earned = undefined` (toggle/direct completion and
undo) or through `confirmComplete`. -/
inductive Step : Bool → AppState → AppState → Prop
  | saveNew {dg : Bool} {s : AppState} (taskId taskTitle : String) (taskCourse : Option String)
      (dueISO : Option String) (priority : Priority) (notes : Option String)
      (tags : Option (List String)) (estRaw ptsRaw : Option ℤ) (nowISO : String)
      (hfresh : ∀ t ∈ s.tasks, t.id ≠ taskId)
      (hlink : ∀ g ∈ s.grades, g.taskId ≠ some taskId) :
      Step dg s (saveTaskNew s taskId taskTitle taskCourse dueISO priority notes tags
        estRaw ptsRaw nowISO)
  | saveEdit {dg : Bool} {s : AppState} (editingTaskId taskTitle : String)
      (taskCourse : Option String) (dueISO : Option String) (priority : Priority)
      (notes : Option String) (tags : Option (List String)) (estRaw ptsRaw : Option ℤ)
      (gradeId nowISO : String) :
      Step dg s (saveTaskEdit s editingTaskId taskTitle taskCourse dueISO priority notes tags
        estRaw ptsRaw gradeId nowISO)
  | markDone {dg : Bool} {s : AppState} (id nowISO gradeId : String) :
      Step dg s (applyTaskDone s id true none nowISO gradeId)
  | undo {dg : Bool} {s : AppState} (id nowISO gradeId : String) :
      Step dg s (applyTaskDone s id false none nowISO gradeId)
  | confirm {dg : Bool} {s : AppState} (id : String) (entered : Option ℚ) (nowISO gradeId : String) :
      Step dg s (confirmComplete s id entered nowISO gradeId)
  | delTask {dg : Bool} {s : AppState} (id : String) :
      Step dg s (deleteTask s id)
  | newCourse {dg : Bool} {s : AppState} (courseId courseNameInput courseColor : String)
      (creditsRaw : Option ℤ) :
      Step dg s (addCourse s courseId courseNameInput courseColor creditsRaw)
  | delCourse {dg : Bool} {s : AppState} (id : String) :
      Step dg s (deleteCourse s id)
  | newGrade {dg : Bool} {s : AppState} (gradeId gradeName : String) (gradeCourse : Option String)
      (earned total weightRaw : Option ℚ) (dueISO : Option String) (nowISO : String) :
      Step dg s (addGrade s gradeId gradeName gradeCourse earned total weightRaw dueISO nowISO)
  | delGrade {s : AppState} (id : String) :
      Step true s (deleteGrade s id)

/-- Documents reachable from the default document by entity and
completion-flow operations (`dg = true` additionally allows `deleteGrade`). -/
def Reachable (dg : Bool) (s : AppState) : Prop :=
  Relation.ReflTransGen (Step dg) DEFAULT_STATE s

/-- The state invariant maintained by every operation (deleteGrade included):
task ids are distinct, the point fields are consistent, and every grade item
carrying a `taskId` points at a done task whose points it mirrors. -/
structure Inv (s : AppState) : Prop where
  nodup : s.tasks.Pairwise (fun a b => a.id ≠ b.id)
  pe_done : ∀ t ∈ s.tasks, t.pointsEarned ≠ none → t.done = true
  pe_range : ∀ t ∈ s.tasks, ∀ pe pp, t.pointsEarned = some pe → t.pointsPossible = some pp →
    0 ≤ pe ∧ pe ≤ pp
  pp_range : ∀ t ∈ s.tasks, ∀ pp, t.pointsPossible = some pp → 0 ≤ pp ∧ pp ≤ 999999
  ciso : ∀ t ∈ s.tasks, (¬ t.completedISO = none ↔ t.done = true)
  link : ∀ g ∈ s.grades, ∀ tid, g.taskId = some tid →
    ∃ t ∈ s.tasks, t.id = tid ∧ t.done = true ∧
      ∃ pe pp, t.pointsEarned = some pe ∧ t.pointsPossible = some pp ∧ 0 < pp ∧
        g.scoreEarned = pe ∧ g.scoreTotal = pp

/-- On top of `Inv`: every done task with positive declared points and a
recorded earned score has a linked grade item.  `deleteGrade` breaks this
direction; every other operation preserves it. -/
structure InvFull (s : AppState) extends Inv s : Prop where
  cover : ∀ t ∈ s.tasks, t.done = true → ∀ pp, t.pointsPossible = some pp → 0 < pp →
    ¬ t.pointsEarned = none → ∃ g ∈ s.grades, g.taskId = some t.id

/-! ### Concrete documents used to instantiate the theorems -/

/-- A new task "Essay" worth 20 points, created on the default document. -/
def exTaskDoc : AppState :=
  saveTaskNew DEFAULT_STATE "t1" "Essay" none none .medium none none none (some 20) "now0"

/-- `exTaskDoc` after completing "t1" with entered score 25 (clamped to 20). -/
def exDoneDoc : AppState := confirmComplete exTaskDoc "t1" (some 25) "now1" "g1"

/-- `exDoneDoc` after directly deleting the derived grade item. -/
def exDelGradeDoc : AppState := deleteGrade exDoneDoc "g1"

/-- A new task "A" without points, created on the default document. -/
def exOpenDoc : AppState :=
  saveTaskNew DEFAULT_STATE "t1" "A" none none .medium none none none none "now0"

/-- `exOpenDoc` after toggling "t1" done (no points: no score prompt, no grade). -/
def exDirectDoneDoc : AppState := applyTaskDone exOpenDoc "t1" true none "now1" "g1"

/-- `exDirectDoneDoc` after an edit that sets `pointsPossible` to 20. -/
def exLatePointsDoc : AppState :=
  saveTaskEdit exDirectDoneDoc "t1" "A" none none .medium none none none (some 20) "g2" "now2"

/-- `exTaskDoc` after completing "t1" with entered score 15. -/
def exDone15Doc : AppState := confirmComplete exTaskDoc "t1" (some 15) "now1" "g1"

/-- `exDone15Doc` after an edit that clears the points field. -/
def exClearPointsDoc : AppState :=
  saveTaskEdit exDone15Doc "t1" "Essay" none none .medium none none none none "g2" "now2"

/-- A done 15/20 task with its derived grade item plus an unrelated manual one. -/
def wTask1 : Task :=
  ⟨"t1", "Essay", none, none, .medium, none, true, "c0", none, none, some 20, some 15, some "d0"⟩

def wGrade1 : GradeItem := ⟨"g1", none, "Essay", 15, 20, none, none, some "t1", some "c1"⟩

def wGrade2 : GradeItem := ⟨"g2", none, "Other", 5, 10, none, none, none, none⟩

def wUndoDoc : AppState :=
  { version := 2, courses := [], tasks := [wTask1], grades := [wGrade1, wGrade2],
    settings := DEFAULT_STATE.settings }

/-- A course referenced by one task and one grade item. -/
def wCourse1 : Course := ⟨"c1", "Calc II", "#3b82f6", some 3⟩

def wTaskC : Task :=
  ⟨"t1", "HW1", some "c1", none, .medium, none, false, "c0", none, none, none, none, none⟩

def wGradeC : GradeItem := ⟨"g1", some "c1", "Quiz", 8, 10, none, none, none, some "c2"⟩

def wCourseDoc : AppState :=
  { version := 2, courses := [wCourse1], tasks := [wTaskC], grades := [wGradeC],
    settings := DEFAULT_STATE.settings }

/-- A stored document whose `weekStartsOn` is the number 1/2. -/
def goHalfDoc : GoState :=
  { version := 2, courses := some [], tasks := some [], grades := some [],
    settings := some ⟨none, some (.num (1 / 2)), none, none, []⟩ }

/-- A wire document whose `weekStartsOn` is the number 5. -/
def clientFiveDoc : ClientStatePart :=
  { version := none, courses := .missing, tasks := .missing, grades := .missing,
    settings := some ⟨none, some (.num 5), none, none, []⟩ }

/-- A grade item with `scoreTotal = 1/2 < 1` and a declared weight. -/
def gHalfTotal : GradeItem := ⟨"g", none, "q", 1, 1 / 2, some 10, none, none, none⟩

/-- The open 20-point task stored in `exTaskDoc`. -/
def wEssayTask : Task :=
  ⟨"t1", "Essay", none, none, .medium, none, false, "now0", none, none, some 20, none, none⟩

/-- A PUT body with every field missing (zero-value decode). -/
def goEmptyDoc : GoState := ⟨0, none, none, none, none⟩

/-! ## Basic lemmas -/

theorem le_clamp (n a b : ℚ) : a ≤ clamp n a b := le_max_left _ _

theorem clamp_le {a b : ℚ} (n : ℚ) (h : a ≤ b) : clamp n a b ≤ b :=
  max_le h (min_le_left _ _)

theorem clamp_eq_of_mem {n a b : ℚ} (h1 : a ≤ n) (h2 : n ≤ b) : clamp n a b = n := by
  rw [clamp, min_eq_right h2, max_eq_right h1]

theorem task_id_unique {l : List Task} (hn : l.Pairwise (fun a b => a.id ≠ b.id))
    {a b : Task} (ha : a ∈ l) (hb : b ∈ l) (h : a.id = b.id) : a = b := by
  induction l with
  | nil => cases ha
  | cons hd tl ih =>
    rw [List.pairwise_cons] at hn
    rcases List.mem_cons.mp ha with rfl | ha2
    · rcases List.mem_cons.mp hb with rfl | hb2
      · rfl
      · exact absurd h (hn.1 b hb2)
    · rcases List.mem_cons.mp hb with rfl | hb2
      · exact absurd h.symm (hn.1 a ha2)
      · exact ih hn.2 ha2 hb2

theorem find?_task {l : List Task} {id : String} {t : Task}
    (h : l.find? (fun x => x.id = id) = some t) : t ∈ l ∧ t.id = id :=
  ⟨List.mem_of_find?_eq_some h, by simpa using List.find?_some h⟩

theorem find?_grade {l : List GradeItem} {id : String} {g : GradeItem}
    (h : l.find? (fun x => x.taskId = some id) = some g) : g ∈ l ∧ g.taskId = some id :=
  ⟨List.mem_of_find?_eq_some h, by simpa using List.find?_some h⟩

theorem getLast?_filter_task {l : List Task} {id : String} {t : Task}
    (h : (l.filter (fun x => x.id = id)).getLast? = some t) : t ∈ l ∧ t.id = id := by
  have hm : t ∈ l.filter (fun x => x.id = id) := by
    obtain ⟨hne, rfl⟩ := List.mem_getLast?_eq_getLast h
    exact List.getLast_mem hne
  have := List.mem_filter.mp hm
  exact ⟨this.1, of_decide_eq_true this.2⟩

/-! ## C3 — deleteCourse cascade-nullifies -/

/-- C3: for every Document and course id `c` present in `courses`,
`deleteCourse c` removes `c` from the courses, sets `courseId` to undefined on
every Task and GradeItem that referenced `c`, leaves all other tasks and
grade items untouched, and removes no Task or GradeItem. -/
theorem deleteCourse_cascade_nullifies (s : AppState) (c : String)
    (hc : ∃ co ∈ s.courses, co.id = c) :
    (∀ co ∈ (deleteCourse s c).courses, ¬ co.id = c) ∧
    (deleteCourse s c).tasks.length = s.tasks.length ∧
    (deleteCourse s c).grades.length = s.grades.length ∧
    (∀ i (hi : i < s.tasks.length) (hi2 : i < (deleteCourse s c).tasks.length),
      (deleteCourse s c).tasks.get ⟨i, hi2⟩ =
        if (s.tasks.get ⟨i, hi⟩).courseId = some c
        then { s.tasks.get ⟨i, hi⟩ with courseId := none }
        else s.tasks.get ⟨i, hi⟩) ∧
    (∀ i (hi : i < s.grades.length) (hi2 : i < (deleteCourse s c).grades.length),
      (deleteCourse s c).grades.get ⟨i, hi2⟩ =
        if (s.grades.get ⟨i, hi⟩).courseId = some c
        then { s.grades.get ⟨i, hi⟩ with courseId := none }
        else s.grades.get ⟨i, hi⟩) := by
  refine ⟨?_, ?_, ?_, ?_, ?_⟩
  · intro co hco
    simp [deleteCourse] at hco
    exact hco.2
  · simp [deleteCourse]
  · simp [deleteCourse]
  · intro i hi hi2
    simp [deleteCourse, List.get_eq_getElem]
  · intro i hi hi2
    simp [deleteCourse, List.get_eq_getElem]

theorem deleteCourse_cascade_nullifies_witness :
    (∃ co ∈ wCourseDoc.courses, co.id = "c1") ∧
    ((∀ co ∈ (deleteCourse wCourseDoc "c1").courses, ¬ co.id = "c1") ∧
    (deleteCourse wCourseDoc "c1").tasks.length = wCourseDoc.tasks.length ∧
    (deleteCourse wCourseDoc "c1").grades.length = wCourseDoc.grades.length ∧
    (∀ i (hi : i < wCourseDoc.tasks.length)
        (hi2 : i < (deleteCourse wCourseDoc "c1").tasks.length),
      (deleteCourse wCourseDoc "c1").tasks.get ⟨i, hi2⟩ =
        if (wCourseDoc.tasks.get ⟨i, hi⟩).courseId = some "c1"
        then { wCourseDoc.tasks.get ⟨i, hi⟩ with courseId := none }
        else wCourseDoc.tasks.get ⟨i, hi⟩) ∧
    (∀ i (hi : i < wCourseDoc.grades.length)
        (hi2 : i < (deleteCourse wCourseDoc "c1").grades.length),
      (deleteCourse wCourseDoc "c1").grades.get ⟨i, hi2⟩ =
        if (wCourseDoc.grades.get ⟨i, hi⟩).courseId = some "c1"
        then { wCourseDoc.grades.get ⟨i, hi⟩ with courseId := none }
        else wCourseDoc.grades.get ⟨i, hi⟩)) :=
  ⟨by decide, deleteCourse_cascade_nullifies wCourseDoc "c1" (by decide)⟩

/-! ## C4 — undo clears completion data and removes exactly the linked grade -/

/-- C4: undoing a done task `t` with a linked grade item sets `done := false`,
clears `pointsEarned` and `completedISO`, removes exactly the grade items whose
`taskId` is `t.id`, and changes nothing else (other tasks, other grade items,
the other fields of `t`, courses and settings). -/
theorem undo_removes_exactly_linked_grade (s : AppState) (tid nowISO gradeId : String) (t : Task)
    (ht : s.tasks.find? (fun x => x.id = tid) = some t)
    (hdone : t.done = true)
    (hlink : ∃ g ∈ s.grades, g.taskId = some tid) :
    (applyTaskDone s tid false none nowISO gradeId).tasks.length = s.tasks.length ∧
    (∀ i (hi : i < s.tasks.length)
        (hi2 : i < (applyTaskDone s tid false none nowISO gradeId).tasks.length),
      (applyTaskDone s tid false none nowISO gradeId).tasks.get ⟨i, hi2⟩ =
        if (s.tasks.get ⟨i, hi⟩).id = tid
        then { s.tasks.get ⟨i, hi⟩ with done := false, pointsEarned := none, completedISO := none }
        else s.tasks.get ⟨i, hi⟩) ∧
    (∀ g : GradeItem, g ∈ (applyTaskDone s tid false none nowISO gradeId).grades ↔
      g ∈ s.grades ∧ ¬ g.taskId = some tid) ∧
    (applyTaskDone s tid false none nowISO gradeId).courses = s.courses ∧
    (applyTaskDone s tid false none nowISO gradeId).settings = s.settings := by
  refine ⟨?_, ?_, ?_, ?_, ?_⟩ <;>
    simp [applyTaskDone, ht, List.get_eq_getElem, List.mem_filter]

theorem undo_removes_exactly_linked_grade_witness :
    (wUndoDoc.tasks.find? (fun x => x.id = "t1") = some wTask1 ∧ wTask1.done = true ∧
      ∃ g ∈ wUndoDoc.grades, g.taskId = some "t1") ∧
    ((applyTaskDone wUndoDoc "t1" false none "n9" "g9").tasks.length = wUndoDoc.tasks.length ∧
    (∀ i (hi : i < wUndoDoc.tasks.length)
        (hi2 : i < (applyTaskDone wUndoDoc "t1" false none "n9" "g9").tasks.length),
      (applyTaskDone wUndoDoc "t1" false none "n9" "g9").tasks.get ⟨i, hi2⟩ =
        if (wUndoDoc.tasks.get ⟨i, hi⟩).id = "t1"
        then { wUndoDoc.tasks.get ⟨i, hi⟩ with
                done := false, pointsEarned := none, completedISO := none }
        else wUndoDoc.tasks.get ⟨i, hi⟩) ∧
    (∀ g : GradeItem, g ∈ (applyTaskDone wUndoDoc "t1" false none "n9" "g9").grades ↔
      g ∈ wUndoDoc.grades ∧ ¬ g.taskId = some "t1") ∧
    (applyTaskDone wUndoDoc "t1" false none "n9" "g9").courses = wUndoDoc.courses ∧
    (applyTaskDone wUndoDoc "t1" false none "n9" "g9").settings = wUndoDoc.settings) :=
  ⟨⟨by decide, by decide, by decide⟩,
    undo_removes_exactly_linked_grade wUndoDoc "t1" "n9" "g9" wTask1
      (by decide) (by decide) (by decide)⟩

/-! ## C10 — entity operations never touch settings or version -/

/-- C10: every entity operation and completion-flow operation (both branches of
saveTask, applyTaskDone, deleteTask, addCourse, deleteCourse, addGrade and
deleteGrade) preserves the document's `settings` and `version` fields. -/
theorem entity_ops_preserve_settings_version :
    (∀ (s : AppState) (taskId taskTitle : String) (taskCourse : Option String)
        (dueISO : Option String) (priority : Priority) (notes : Option String)
        (tags : Option (List String)) (estRaw ptsRaw : Option ℤ) (nowISO : String),
      (saveTaskNew s taskId taskTitle taskCourse dueISO priority notes tags
          estRaw ptsRaw nowISO).settings = s.settings ∧
      (saveTaskNew s taskId taskTitle taskCourse dueISO priority notes tags
          estRaw ptsRaw nowISO).version = s.version) ∧
    (∀ (s : AppState) (editingTaskId taskTitle : String) (taskCourse : Option String)
        (dueISO : Option String) (priority : Priority) (notes : Option String)
        (tags : Option (List String)) (estRaw ptsRaw : Option ℤ) (gradeId nowISO : String),
      (saveTaskEdit s editingTaskId taskTitle taskCourse dueISO priority notes tags
          estRaw ptsRaw gradeId nowISO).settings = s.settings ∧
      (saveTaskEdit s editingTaskId taskTitle taskCourse dueISO priority notes tags
          estRaw ptsRaw gradeId nowISO).version = s.version) ∧
    (∀ (s : AppState) (id : String) (done : Bool) (earned : Option ℚ) (nowISO gradeId : String),
      (applyTaskDone s id done earned nowISO gradeId).settings = s.settings ∧
      (applyTaskDone s id done earned nowISO gradeId).version = s.version) ∧
    (∀ (s : AppState) (id : String),
      (deleteTask s id).settings = s.settings ∧ (deleteTask s id).version = s.version) ∧
    (∀ (s : AppState) (courseId courseNameInput courseColor : String) (creditsRaw : Option ℤ),
      (addCourse s courseId courseNameInput courseColor creditsRaw).settings = s.settings ∧
      (addCourse s courseId courseNameInput courseColor creditsRaw).version = s.version) ∧
    (∀ (s : AppState) (id : String),
      (deleteCourse s id).settings = s.settings ∧ (deleteCourse s id).version = s.version) ∧
    (∀ (s : AppState) (gradeId gradeName : String) (gradeCourse : Option String)
        (earned total weightRaw : Option ℚ) (dueISO : Option String) (nowISO : String),
      (addGrade s gradeId gradeName gradeCourse earned total weightRaw dueISO nowISO).settings
          = s.settings ∧
      (addGrade s gradeId gradeName gradeCourse earned total weightRaw dueISO nowISO).version
          = s.version) ∧
    (∀ (s : AppState) (id : String),
      (deleteGrade s id).settings = s.settings ∧ (deleteGrade s id).version = s.version) := by
  refine ⟨?_, ?_, ?_, ?_, ?_, ?_, ?_, ?_⟩ <;> intros <;>
    constructor <;>
      first
        | (unfold saveTaskNew; split <;> rfl)
        | (unfold saveTaskEdit; split
           · rfl
           · split <;> rfl)
        | (unfold applyTaskDone; split
           · rfl
           · split <;> rfl)
        | (unfold deleteTask; rfl)
        | (unfold addCourse; split <;> rfl)
        | (unfold deleteCourse; rfl)
        | (unfold addGrade; split
           · rfl
           · split <;> try rfl
             split <;> rfl)
        | (unfold deleteGrade; rfl)

/-! ## C2 — confirming a completion score -/

/-- C2: for a task with `pointsPossible = P > 0` and any entered score,
confirming completion stores `pointsEarned` equal to the entered amount rounded
to one decimal and clamped to `[0, P]`, marks the task done with `completedISO`
set, leaves unrelated tasks in place, and creates a linked grade item (when
none with this `taskId` exists) or updates the existing one to
`{scoreEarned, scoreTotal, name, courseId, dueISO}` preserving its `id` and
`createdISO`. -/
theorem confirmComplete_stores_clamped_score (s : AppState) (tid : String) (entered : Option ℚ)
    (nowISO gradeId : String) (t : Task) (P : ℚ)
    (ht : s.tasks.find? (fun x => x.id = tid) = some t)
    (hp : t.pointsPossible = some P) (hPpos : 0 < P) :
    (0 ≤ clamp (round1 (safeNum entered)) 0 P ∧ clamp (round1 (safeNum entered)) 0 P ≤ P) ∧
    (∀ x ∈ (confirmComplete s tid entered nowISO gradeId).tasks, x.id = tid →
      x.done = true ∧ x.pointsEarned = some (clamp (round1 (safeNum entered)) 0 P) ∧
      x.completedISO = some nowISO) ∧
    (∀ x ∈ s.tasks, ¬ x.id = tid → x ∈ (confirmComplete s tid entered nowISO gradeId).tasks) ∧
    (∀ ex, s.grades.find? (fun g => g.taskId = some tid) = some ex →
      (confirmComplete s tid entered nowISO gradeId).grades.length = s.grades.length ∧
      ∃ g' ∈ (confirmComplete s tid entered nowISO gradeId).grades,
        g'.id = ex.id ∧ g'.taskId = some tid ∧
        g'.scoreEarned = clamp (round1 (safeNum entered)) 0 P ∧ g'.scoreTotal = P ∧
        g'.name = t.title ∧ g'.courseId = t.courseId ∧ g'.dueISO = t.dueISO ∧
        (∀ c, ex.createdISO = some c → g'.createdISO = some c)) ∧
    (s.grades.find? (fun g => g.taskId = some tid) = none →
      (confirmComplete s tid entered nowISO gradeId).grades =
        { id := gradeId, courseId := t.courseId, name := t.title,
          scoreEarned := clamp (round1 (safeNum entered)) 0 P, scoreTotal := P, weight := none,
          dueISO := t.dueISO, taskId := some tid,
          createdISO := some nowISO } :: s.grades) := by
  have hE0 : 0 ≤ clamp (round1 (safeNum entered)) 0 P := le_clamp _ _ _
  have hEP : clamp (round1 (safeNum entered)) 0 P ≤ P := clamp_le _ hPpos.le
  have hclamp : clamp (clamp (round1 (safeNum entered)) 0 P) 0 P
      = clamp (round1 (safeNum entered)) 0 P := clamp_eq_of_mem hE0 hEP
  have hcc : confirmComplete s tid entered nowISO gradeId
      = applyTaskDone s tid true (some (clamp (round1 (safeNum entered)) 0 P)) nowISO gradeId := by
    unfold confirmComplete
    rw [ht]
    simp [hp]
  refine ⟨⟨hE0, hEP⟩, ?_, ?_, ?_, ?_⟩
  · intro x hx hxid
    rw [hcc] at hx
    unfold applyTaskDone at hx
    rw [ht] at hx
    simp only [Bool.true_eq_false, if_false, reduceCtorEq] at hx
    simp only [List.mem_map] at hx
    obtain ⟨y, hy, rfl⟩ := hx
    by_cases hyid : y.id = tid
    · simp [hyid, donePtsEarned]
    · rw [if_neg hyid] at hxid
      exact absurd hxid hyid
  · intro x hx hne
    rw [hcc]
    unfold applyTaskDone
    rw [ht]
    simp only [Bool.true_eq_false, if_false, reduceCtorEq]
    simp only [List.mem_map]
    exact ⟨x, hx, by simp [hne]⟩
  · intro ex hex
    rw [hcc]
    unfold applyTaskDone
    rw [ht]
    have hmem := (find?_grade hex).1
    have htid := (find?_grade hex).2
    simp only [Bool.true_eq_false, if_false, reduceCtorEq, hp, donePtsEarned, hPpos,
      if_pos, hex]
    constructor
    · simp
    · refine ⟨derivedItem ex.id tid t.courseId t.title
        (clamp (round1 (safeNum entered)) 0 P) P t.dueISO (ex.createdISO.getD nowISO), ?_, ?_⟩
      · simp only [List.mem_map]
        exact ⟨ex, hmem, by simp [htid]⟩
      · refine ⟨rfl, rfl, ?_, rfl, rfl, rfl, rfl, ?_⟩
        · simpa [derivedItem] using hclamp
        · intro c hc
          simp [derivedItem, hc]
  · intro hnone
    rw [hcc]
    unfold applyTaskDone
    rw [ht]
    simp only [Bool.true_eq_false, if_false, reduceCtorEq, hp, donePtsEarned, hPpos,
      if_pos, hnone]
    simp [derivedItem, hclamp]

theorem confirmComplete_stores_clamped_score_witness :
    (exTaskDoc.tasks.find? (fun x => x.id = "t1") = some wEssayTask ∧
      wEssayTask.pointsPossible = some 20 ∧ (0 : ℚ) < 20) ∧
    ((0 ≤ clamp (round1 (safeNum (some 25))) 0 20 ∧
        clamp (round1 (safeNum (some 25))) 0 20 ≤ 20) ∧
    (∀ x ∈ (confirmComplete exTaskDoc "t1" (some 25) "now1" "g1").tasks, x.id = "t1" →
      x.done = true ∧ x.pointsEarned = some (clamp (round1 (safeNum (some 25))) 0 20) ∧
      x.completedISO = some "now1") ∧
    (∀ x ∈ exTaskDoc.tasks, ¬ x.id = "t1" →
      x ∈ (confirmComplete exTaskDoc "t1" (some 25) "now1" "g1").tasks) ∧
    (∀ ex, exTaskDoc.grades.find? (fun g => g.taskId = some "t1") = some ex →
      (confirmComplete exTaskDoc "t1" (some 25) "now1" "g1").grades.length
          = exTaskDoc.grades.length ∧
      ∃ g' ∈ (confirmComplete exTaskDoc "t1" (some 25) "now1" "g1").grades,
        g'.id = ex.id ∧ g'.taskId = some "t1" ∧
        g'.scoreEarned = clamp (round1 (safeNum (some 25))) 0 20 ∧ g'.scoreTotal = 20 ∧
        g'.name = wEssayTask.title ∧ g'.courseId = wEssayTask.courseId ∧
        g'.dueISO = wEssayTask.dueISO ∧
        (∀ c, ex.createdISO = some c → g'.createdISO = some c)) ∧
    (exTaskDoc.grades.find? (fun g => g.taskId = some "t1") = none →
      (confirmComplete exTaskDoc "t1" (some 25) "now1" "g1").grades =
        { id := "g1", courseId := wEssayTask.courseId, name := wEssayTask.title,
          scoreEarned := clamp (round1 (safeNum (some 25))) 0 20, scoreTotal := 20,
          weight := none, dueISO := wEssayTask.dueISO, taskId := some "t1",
          createdISO := some "now1" } :: exTaskDoc.grades)) :=
  ⟨⟨by decide, by decide, by decide⟩,
    confirmComplete_stores_clamped_score exTaskDoc "t1" (some 25) "now1" "g1" wEssayTask 20
      (by decide) (by decide) (by decide)⟩

/-! ## C8 — normalization is idempotent -/

theorem goTrunc_one : goTrunc 1 = 1 := by norm_num [goTrunc]

theorem goWeekStartsOn_idem (ws : Option JVal) :
    goWeekStartsOn (some (goWeekStartsOn ws)) = goWeekStartsOn ws := by
  rcases ws with _ | v
  · simp [goWeekStartsOn, goTrunc_one]
  · rcases v with q | s | _
    · by_cases h : goTrunc q ≠ 0 ∧ goTrunc q ≠ 1
      · simp [goWeekStartsOn, h, goTrunc_one]
      · simp [goWeekStartsOn, h]
    · simp [goWeekStartsOn, goTrunc_one]
    · simp [goWeekStartsOn, goTrunc_one]

/-- C8: both normalizations are idempotent — re-normalizing a stored PUT body
is a no-op, and re-merging a merged client document (read back off the wire)
is a no-op. -/
theorem normalize_idempotent :
    (∀ st : GoState, goNormalize (goNormalize st) = goNormalize st) ∧
    (∀ d : ClientStatePart, mergeLoadedState (toPart (mergeLoadedState d)) = mergeLoadedState d) := by
  constructor
  · intro st
    by_cases hv : st.version = 0 <;>
      simp [goNormalize, hv, goWeekStartsOn_idem]
  · intro d
    rfl

/-! ## C6 — what normalization fills in (amended) -/

/-- C6 (amended): on the server, missing `courses`/`tasks`/`grades` become
empty sequences and present ones are kept; missing settings or missing
settings fields are filled from defaults; `weekStartsOn` is replaced by `1`
exactly when it is missing, non-numeric, or a number whose truncation toward
zero is neither 0 nor 1 (otherwise the original number is kept).  On the
client, the same defaults are filled for missing fields, non-arrays become
empty sequences, and a present `weekStartsOn` is passed through unchanged
(never coerced). -/
theorem normalization_fills_defaults :
    (∀ st : GoState,
      (goNormalize st).courses = some (st.courses.getD []) ∧
      (goNormalize st).tasks = some (st.tasks.getD []) ∧
      (goNormalize st).grades = some (st.grades.getD [])) ∧
    (∀ st : GoState, st.settings = none →
      (goNormalize st).settings =
        some ⟨some (.str "Semester"), some (.num 1), some (.str "light"),
              some (.str "dashboard"), []⟩) ∧
    (∀ st : GoState, ∀ gs, st.settings = some gs →
      (goNormalize st).settings = some
        ⟨some (gs.semesterName.getD (.str "Semester")),
         some (goWeekStartsOn gs.weekStartsOn),
         some (gs.theme.getD (.str "light")),
         some (gs.defaultView.getD (.str "dashboard")), gs.extra⟩) ∧
    (∀ q : ℚ, goWeekStartsOn (some (.num q)) =
      if goTrunc q ≠ 0 ∧ goTrunc q ≠ 1 then .num 1 else .num q) ∧
    goWeekStartsOn none = .num 1 ∧
    (∀ v : JVal, (∀ q : ℚ, ¬ v = .num q) → goWeekStartsOn (some v) = .num 1) ∧
    (∀ d : ClientStatePart,
      (d.courses = .missing → (mergeLoadedState d).courses = []) ∧
      (d.tasks = .missing → (mergeLoadedState d).tasks = []) ∧
      (d.grades = .missing → (mergeLoadedState d).grades = [])) ∧
    (∀ d : ClientStatePart, d.settings = none →
      (mergeLoadedState d).settings =
        ⟨.str "Semester", .num 1, .str "light", .str "dashboard", []⟩) ∧
    (∀ d : ClientStatePart, ∀ sp, d.settings = some sp →
      (sp.weekStartsOn = none → (mergeLoadedState d).settings.weekStartsOn = .num 1) ∧
      (∀ v, sp.weekStartsOn = some v → (mergeLoadedState d).settings.weekStartsOn = v)) := by
  refine ⟨?_, ?_, ?_, ?_, rfl, ?_, ?_, ?_, ?_⟩
  · intro st; exact ⟨rfl, rfl, rfl⟩
  · intro st h; simp [goNormalize, goWeekStartsOn, h]
  · intro st gs h; simp [goNormalize, h]
  · intro q; rfl
  · intro v hv
    rcases v with q | s | _
    · exact absurd rfl (hv q)
    · rfl
    · rfl
  · intro d
    refine ⟨?_, ?_, ?_⟩ <;> intro h <;> simp [mergeLoadedState, h]
  · intro d h; simp [mergeLoadedState, h]
  · intro d sp h
    constructor
    · intro hw; simp [mergeLoadedState, h, hw]
    · intro v hw; simp [mergeLoadedState, h, hw]

theorem normalization_fills_defaults_witness :
    goEmptyDoc.settings = none ∧
    (goNormalize goEmptyDoc).settings =
      some ⟨some (.str "Semester"), some (.num 1), some (.str "light"),
            some (.str "dashboard"), []⟩ ∧
    clientFiveDoc.settings = some ⟨none, some (.num 5), none, none, []⟩ ∧
    (mergeLoadedState clientFiveDoc).settings.weekStartsOn = .num 5 :=
  ⟨rfl, normalization_fills_defaults.2.1 goEmptyDoc rfl, rfl,
    (normalization_fills_defaults.2.2.2.2.2.2.2.2 clientFiveDoc
      ⟨none, some (.num 5), none, none, []⟩ rfl).2 (.num 5) rfl⟩

/-- C6, counterexample to the claim as stated: `weekStartsOn` is *not* coerced
to 1 whenever the input is not exactly 0 or 1.  The server keeps the number
1/2 (its truncation is 0), and the client load merge keeps the number 5
untouched. -/
theorem weekStartsOn_coercion_cex :
    goHalfDoc.settings = some ⟨none, some (.num (1 / 2)), none, none, []⟩ ∧
    ¬ ((1 : ℚ) / 2 = 0 ∨ (1 : ℚ) / 2 = 1) ∧
    (goNormalize goHalfDoc).settings =
      some ⟨some (.str "Semester"), some (.num (1 / 2)), some (.str "light"),
            some (.str "dashboard"), []⟩ ∧
    clientFiveDoc.settings = some ⟨none, some (.num 5), none, none, []⟩ ∧
    ¬ (5 : ℚ) = 0 ∧ ¬ (5 : ℚ) = 1 ∧
    (mergeLoadedState clientFiveDoc).settings.weekStartsOn = .num 5 := by
  refine ⟨rfl, by norm_num, ?_, rfl, by norm_num, by norm_num, rfl⟩
  have h2 : goTrunc (1 / 2) = 0 := by
    rw [goTrunc, if_pos (by norm_num)]
    norm_num [Int.floor_eq_zero_iff]
  have h2b : goTrunc (2⁻¹ : ℚ) = 0 := by
    rwa [show ((2 : ℚ)⁻¹) = 1 / 2 from by norm_num]
  simp [goNormalize, goHalfDoc, goWeekStartsOn, h2, h2b]

/-! ## C9 — the weighted grade channel (amended) -/

theorem foldl_aggAdd (l : List GradeItem) (a : CourseAgg) :
    (l.foldl aggAdd a).earned = a.earned + (l.map (fun g => g.scoreEarned)).sum ∧
    (l.foldl aggAdd a).total = a.total + (l.map (fun g => g.scoreTotal)).sum ∧
    (l.foldl aggAdd a).weightedEarned = a.weightedEarned +
      ((l.filter (fun g => g.weight.isSome)).map
        (fun g => g.scoreEarned / max 1 g.scoreTotal * g.weight.getD 0)).sum ∧
    (l.foldl aggAdd a).weightedTotal = a.weightedTotal +
      ((l.filter (fun g => g.weight.isSome)).map (fun g => g.weight.getD 0)).sum := by
  induction l generalizing a with
  | nil => simp
  | cons g tl ih =>
    rcases hw : g.weight with _ | w <;>
      · simp only [List.foldl_cons, List.map_cons, List.sum_cons, List.filter_cons, hw,
          aggAdd]
        rcases ih (aggAdd a g) with ⟨ih1, ih2, ih3, ih4⟩
        simp only [aggAdd, hw] at ih1 ih2 ih3 ih4
        refine ⟨by rw [ih1]; ring, by rw [ih2]; ring, ?_, ?_⟩ <;>
          simp [ih3, ih4, hw] <;> ring

/-- C9 (amended): for every grade list and every bucket, `gradeStats` sums the
raw `scoreEarned`/`scoreTotal` channels over all items of the bucket, and a
parallel weighted channel sums `scoreEarned / max(1, scoreTotal) * weight` and
`weight` over exactly the items that declare a weight; the two channels are
independent closed sums, never blended. -/
theorem gradeStats_weighted_channel (grades : List GradeItem) (key : String) :
    (gradeStatsFor grades key).earned =
      ((grades.filter (fun g => gradeKey g = key)).map (fun g => g.scoreEarned)).sum ∧
    (gradeStatsFor grades key).total =
      ((grades.filter (fun g => gradeKey g = key)).map (fun g => g.scoreTotal)).sum ∧
    (gradeStatsFor grades key).weightedEarned =
      (((grades.filter (fun g => gradeKey g = key)).filter (fun g => g.weight.isSome)).map
        (fun g => g.scoreEarned / max 1 g.scoreTotal * g.weight.getD 0)).sum ∧
    (gradeStatsFor grades key).weightedTotal =
      (((grades.filter (fun g => gradeKey g = key)).filter (fun g => g.weight.isSome)).map
        (fun g => g.weight.getD 0)).sum := by
  have h := foldl_aggAdd (grades.filter (fun g => gradeKey g = key)) ⟨0, 0, 0, 0⟩
  simpa [gradeStatsFor] using h

/-- C9, counterexample to the claim as stated: the code divides by
`max(1, scoreTotal)`, not by `scoreTotal`.  For a weighted item scoring 1 out
of a total of 1/2, the accumulated weighted credit is 10, while
`(scoreEarned/scoreTotal) * weight` would be 20. -/
theorem gradeStats_weighted_cex :
    gHalfTotal.weight = some 10 ∧ gHalfTotal.scoreTotal = 1 / 2 ∧
    (gradeStatsFor [gHalfTotal] "none").weightedEarned = 10 ∧
    gHalfTotal.scoreEarned / gHalfTotal.scoreTotal * 10 = 20 ∧
    ¬ (10 : ℚ) = 20 := by
  refine ⟨rfl, rfl, ?_, by norm_num [gHalfTotal], by norm_num⟩
  norm_num [gradeStatsFor, gradeKey, aggAdd, gHalfTotal]

/-! ## C7 — debounce coalescing -/

theorem foldl_scheduleSave {α : Type} (w : List α) :
    ∀ (ms : List (ℕ × α)) (cur : ℕ × α),
      List.Chain' (fun a b => a.1 ≤ b.1 ∧ b.1 < a.1 + DEBOUNCE_MS) (cur :: ms) →
      ms.foldl (fun st td => scheduleSave st td.1 td.2)
          ⟨some (cur.1 + DEBOUNCE_MS, cur.2), w⟩
        = ⟨some (((cur :: ms).getLast (List.cons_ne_nil _ _)).1 + DEBOUNCE_MS,
                 ((cur :: ms).getLast (List.cons_ne_nil _ _)).2), w⟩ := by
  intro ms
  induction ms with
  | nil => intro cur _; rfl
  | cons m tl ih =>
    intro cur hch
    rw [List.chain'_cons] at hch
    have hlt : ¬ cur.1 + DEBOUNCE_MS ≤ m.1 := by omega
    have hstep : scheduleSave (⟨some (cur.1 + DEBOUNCE_MS, cur.2), w⟩ : SyncSched α) m.1 m.2
        = ⟨some (m.1 + DEBOUNCE_MS, m.2), w⟩ := by
      simp [scheduleSave, hlt]
    rw [List.foldl_cons, hstep, ih m hch.2]
    have : (cur :: m :: tl).getLast (List.cons_ne_nil _ _)
        = (m :: tl).getLast (List.cons_ne_nil _ _) := List.getLast_cons _
    rw [this]

/-- C7: a sequence of mutations each arriving within the previous one's 450 ms
debounce window results in exactly one remote write, carrying the document of
the final mutation. -/
theorem debounced_save_coalesces (muts : List (ℕ × AppState)) (hne : muts ≠ [])
    (hchain : List.Chain' (fun a b => a.1 ≤ b.1 ∧ b.1 < a.1 + DEBOUNCE_MS) muts) :
    runDebounce muts = [(muts.getLast hne).2] := by
  cases muts with
  | nil => exact absurd rfl hne
  | cons m tl =>
    unfold runDebounce
    rw [List.foldl_cons]
    have h0 : scheduleSave (⟨none, []⟩ : SyncSched AppState) m.1 m.2
        = ⟨some (m.1 + DEBOUNCE_MS, m.2), []⟩ := rfl
    rw [h0, foldl_scheduleSave [] tl m hchain]
    rfl

theorem debounced_save_coalesces_witness :
    ([(0, DEFAULT_STATE), (100, wUndoDoc)] : List (ℕ × AppState)) ≠ [] ∧
    List.Chain' (fun a b => a.1 ≤ b.1 ∧ b.1 < a.1 + DEBOUNCE_MS)
      [(0, DEFAULT_STATE), (100, wUndoDoc)] ∧
    runDebounce [(0, DEFAULT_STATE), (100, wUndoDoc)] = [wUndoDoc] :=
  ⟨by simp, by simp [DEBOUNCE_MS], by
    simpa using debounced_save_coalesces [(0, DEFAULT_STATE), (100, wUndoDoc)]
      (by simp) (by simp [DEBOUNCE_MS])⟩

/-! ## Invariant preservation -/

theorem pairwise_ids_map {l : List Task} {f : Task → Task} (hf : ∀ x, (f x).id = x.id)
    (h : l.Pairwise (fun a b => a.id ≠ b.id)) :
    (l.map f).Pairwise (fun a b => a.id ≠ b.id) := by
  rw [List.pairwise_map]
  exact h.imp (fun hab => by simpa [hf] using hab)

theorem inv_default : Inv DEFAULT_STATE := by
  constructor <;> simp [DEFAULT_STATE]

theorem invFull_default : InvFull DEFAULT_STATE :=
  ⟨inv_default, by simp [DEFAULT_STATE]⟩

theorem inv_deleteTask {s : AppState} (hinv : Inv s) (id : String) :
    Inv (deleteTask s id) := by
  constructor
  · exact hinv.nodup.filter _
  · intro t ht
    exact hinv.pe_done t (List.mem_of_mem_filter ht)
  · intro t ht
    exact hinv.pe_range t (List.mem_of_mem_filter ht)
  · intro t ht
    exact hinv.pp_range t (List.mem_of_mem_filter ht)
  · intro t ht
    exact hinv.ciso t (List.mem_of_mem_filter ht)
  · intro g hg tid hgt
    have hg2 := List.mem_filter.mp hg
    have hgid : ¬ g.taskId = some id := by simpa using hg2.2
    obtain ⟨x, hx, hxid, hxrest⟩ := hinv.link g hg2.1 tid hgt
    have hxne : ¬ x.id = id := fun h => hgid (by rw [hgt, ← hxid, h])
    exact ⟨x, List.mem_filter.mpr ⟨hx, by simpa using hxne⟩, hxid, hxrest⟩

theorem inv_deleteGrade {s : AppState} (hinv : Inv s) (id : String) :
    Inv (deleteGrade s id) := by
  constructor
  · exact hinv.nodup
  · exact hinv.pe_done
  · exact hinv.pe_range
  · exact hinv.pp_range
  · exact hinv.ciso
  · intro g hg tid hgt
    exact hinv.link g (List.mem_of_mem_filter hg) tid hgt

theorem inv_addCourse {s : AppState} (hinv : Inv s)
    (courseId courseNameInput courseColor : String) (creditsRaw : Option ℤ) :
    Inv (addCourse s courseId courseNameInput courseColor creditsRaw) := by
  unfold addCourse
  split
  · exact hinv
  · exact ⟨hinv.nodup, hinv.pe_done, hinv.pe_range, hinv.pp_range, hinv.ciso, hinv.link⟩

theorem inv_addGrade {s : AppState} (hinv : Inv s) (gradeId gradeName : String)
    (gradeCourse : Option String) (earned total weightRaw : Option ℚ)
    (dueISO : Option String) (nowISO : String) :
    Inv (addGrade s gradeId gradeName gradeCourse earned total weightRaw dueISO nowISO) := by
  unfold addGrade
  split
  · exact hinv
  · split
    · split
      · exact hinv
      · refine ⟨hinv.nodup, hinv.pe_done, hinv.pe_range, hinv.pp_range, hinv.ciso, ?_⟩
        intro g hg tid hgt
        rcases List.mem_cons.mp hg with rfl | hg2
        · simp at hgt
        · exact hinv.link g hg2 tid hgt
    · exact hinv

theorem inv_deleteCourse {s : AppState} (hinv : Inv s) (id : String) :
    Inv (deleteCourse s id) := by
  have hfid : ∀ x : Task,
      ((if x.courseId = some id then { x with courseId := none } else x) : Task).id = x.id := by
    intro x; split <;> rfl
  constructor
  · exact pairwise_ids_map hfid hinv.nodup
  · intro t ht
    obtain ⟨x, hx, rfl⟩ := List.mem_map.mp ht
    have := hinv.pe_done x hx
    split <;> simpa using this
  · intro t ht
    obtain ⟨x, hx, rfl⟩ := List.mem_map.mp ht
    have := hinv.pe_range x hx
    split <;> simpa using this
  · intro t ht
    obtain ⟨x, hx, rfl⟩ := List.mem_map.mp ht
    have := hinv.pp_range x hx
    split <;> simpa using this
  · intro t ht
    obtain ⟨x, hx, rfl⟩ := List.mem_map.mp ht
    have := hinv.ciso x hx
    split <;> simpa using this
  · intro g hg tid hgt
    obtain ⟨g0, hg0, rfl⟩ := List.mem_map.mp hg
    have hgt0 : g0.taskId = some tid := by
      revert hgt; split <;> simp
    obtain ⟨x, hx, hxid, hxdone, pe, pp, hxe, hxp, hppos, hse, hst⟩ :=
      hinv.link g0 hg0 tid hgt0
    refine ⟨if x.courseId = some id then { x with courseId := none } else x,
      List.mem_map.mpr ⟨x, hx, rfl⟩, ?_⟩
    have hse2 : (if g0.courseId = some id then { g0 with courseId := none } else g0).scoreEarned
        = g0.scoreEarned := by split <;> rfl
    have hst2 : (if g0.courseId = some id then { g0 with courseId := none } else g0).scoreTotal
        = g0.scoreTotal := by split <;> rfl
    rw [hse2, hst2]
    split <;> exact ⟨hxid, hxdone, pe, pp, hxe, hxp, hppos, hse, hst⟩

theorem inv_saveTaskNew {s : AppState} (hinv : Inv s) (taskId taskTitle : String)
    (taskCourse : Option String) (dueISO : Option String) (priority : Priority)
    (notes : Option String) (tags : Option (List String)) (estRaw ptsRaw : Option ℤ)
    (nowISO : String) (hfresh : ∀ t ∈ s.tasks, t.id ≠ taskId) :
    Inv (saveTaskNew s taskId taskTitle taskCourse dueISO priority notes tags
      estRaw ptsRaw nowISO) := by
  unfold saveTaskNew
  split
  · exact hinv
  · constructor
    · refine List.Pairwise.cons ?_ hinv.nodup
      intro b hb
      exact fun h => hfresh b hb (h.symm)
    · intro t ht
      rcases List.mem_cons.mp ht with rfl | ht2
      · intro h; exact absurd rfl h
      · exact hinv.pe_done t ht2
    · intro t ht
      rcases List.mem_cons.mp ht with rfl | ht2
      · intro pe pp hpe; simp at hpe
      · exact hinv.pe_range t ht2
    · intro t ht
      rcases List.mem_cons.mp ht with rfl | ht2
      · intro pp hpp
        rcases ptsRaw with _ | n
        · simp at hpp
        · simp only [Option.map_some] at hpp
          cases hpp
          exact ⟨le_clamp _ _ _, clamp_le _ (by norm_num)⟩
      · exact hinv.pp_range t ht2
    · intro t ht
      rcases List.mem_cons.mp ht with rfl | ht2
      · simp
      · exact hinv.ciso t ht2
    · intro g hg tid hgt
      obtain ⟨x, hx, hxrest⟩ := hinv.link g hg tid hgt
      exact ⟨x, List.mem_cons_of_mem _ hx, hxrest⟩

theorem donePtsEarned_bounds {earned taskPe taskPp : Option ℚ}
    (hok : ∀ e, earned = some e → ∀ pp, taskPp = some pp → 0 ≤ e ∧ e ≤ pp)
    (hrange : ∀ pe pp, taskPe = some pe → taskPp = some pp → 0 ≤ pe ∧ pe ≤ pp)
    (hpp : ∀ pp, taskPp = some pp → 0 ≤ pp ∧ pp ≤ 999999) :
    ∀ e' pp, donePtsEarned earned taskPe taskPp = some e' → taskPp = some pp →
      0 ≤ e' ∧ e' ≤ pp := by
  intro e' pp hE hp
  rcases earned with _ | e
  · rcases hpe : taskPe with _ | pe0
    · subst hp
      rw [hpe] at hE
      simp only [donePtsEarned] at hE
      cases hE
      have h1 := hpp pp rfl
      constructor
      · exact le_clamp _ _ _
      · rw [clamp_eq_of_mem h1.1 h1.2]
    · rw [hpe] at hE
      simp only [donePtsEarned] at hE
      cases hE
      exact hrange e' pp hpe hp
  · simp only [donePtsEarned] at hE
    cases hE
    exact hok e' rfl pp hp

theorem donePtsEarned_isSome {earned taskPe : Option ℚ} (pp : ℚ) :
    ¬ donePtsEarned earned taskPe (some pp) = none := by
  rcases earned with _ | e <;> rcases taskPe with _ | pe <;> simp [donePtsEarned]

theorem editNextEarned_bounds {taskPe : Option ℚ} {p : ℚ} (hp : 0 ≤ p) :
    ∀ e', editNextEarned taskPe (some p) = some e' → 0 ≤ e' ∧ e' ≤ p := by
  intro e' hE
  rcases taskPe with _ | pe0
  · simp [editNextEarned] at hE
  · simp only [editNextEarned] at hE
    cases hE
    exact ⟨le_clamp _ _ _, clamp_le _ hp⟩

theorem editNextEarned_none {pts : Option ℚ} : editNextEarned none pts = none := by
  rcases pts with _ | p <;> rfl

theorem editNextEarned_pts_none {taskPe : Option ℚ} : editNextEarned taskPe none = taskPe := by
  rcases taskPe with _ | p <;> rfl

theorem inv_applyTaskDone {s : AppState} (hinv : Inv s) (id : String) (b : Bool)
    (earned : Option ℚ) (nowISO gradeId : String)
    (hok : ∀ e, earned = some e → ∀ t ∈ s.tasks, t.id = id → ∀ pp,
      t.pointsPossible = some pp → 0 ≤ e ∧ e ≤ pp) :
    Inv (applyTaskDone s id b earned nowISO gradeId) := by
  unfold applyTaskDone
  split
  · exact hinv
  rename_i t hf
  obtain ⟨htmem, htid⟩ := find?_task hf
  by_cases hb : b = false
  · rw [if_pos hb]
    refine ⟨?_, ?_, ?_, ?_, ?_, ?_⟩
    · exact pairwise_ids_map (fun x => by split <;> rfl) hinv.nodup
    · intro t' ht'
      obtain ⟨x, hx, rfl⟩ := List.mem_map.mp ht'
      by_cases hxid : x.id = id
      · rw [if_pos hxid]; intro h; exact absurd rfl h
      · rw [if_neg hxid]; exact hinv.pe_done x hx
    · intro t' ht'
      obtain ⟨x, hx, rfl⟩ := List.mem_map.mp ht'
      by_cases hxid : x.id = id
      · rw [if_pos hxid]; intro pe pp hpe; simp at hpe
      · rw [if_neg hxid]; exact hinv.pe_range x hx
    · intro t' ht'
      obtain ⟨x, hx, rfl⟩ := List.mem_map.mp ht'
      by_cases hxid : x.id = id
      · rw [if_pos hxid]; exact hinv.pp_range x hx
      · rw [if_neg hxid]; exact hinv.pp_range x hx
    · intro t' ht'
      obtain ⟨x, hx, rfl⟩ := List.mem_map.mp ht'
      by_cases hxid : x.id = id
      · rw [if_pos hxid]; simp
      · rw [if_neg hxid]; exact hinv.ciso x hx
    · intro g hg tid hgt
      have hg2 := List.mem_filter.mp hg
      have hgid : ¬ g.taskId = some id := by simpa using hg2.2
      obtain ⟨x, hx, hxid, hrest⟩ := hinv.link g hg2.1 tid hgt
      have hxne : ¬ x.id = id := fun h => hgid (by rw [hgt, ← hxid, h])
      exact ⟨x, List.mem_map.mpr ⟨x, hx, if_neg hxne⟩, hxid, hrest⟩
  · rw [if_neg hb]
    dsimp only
    have hEb : ∀ e' pp, donePtsEarned earned t.pointsEarned t.pointsPossible = some e' →
        t.pointsPossible = some pp → 0 ≤ e' ∧ e' ≤ pp :=
      donePtsEarned_bounds (fun e he pp hpp => hok e he t htmem htid pp hpp)
        (hinv.pe_range t htmem) (hinv.pp_range t htmem)
    refine ⟨?_, ?_, ?_, ?_, ?_, ?_⟩
    · exact pairwise_ids_map (fun x => by split <;> rfl) hinv.nodup
    · intro t' ht'
      obtain ⟨x, hx, rfl⟩ := List.mem_map.mp ht'
      by_cases hxid : x.id = id
      · rw [if_pos hxid]; intro _; rfl
      · rw [if_neg hxid]; exact hinv.pe_done x hx
    · intro t' ht'
      obtain ⟨x, hx, rfl⟩ := List.mem_map.mp ht'
      by_cases hxid : x.id = id
      · rw [if_pos hxid]
        have hxt : x = t := task_id_unique hinv.nodup hx htmem (by rw [hxid, htid])
        subst hxt
        intro pe pp hpe hpp
        exact hEb pe pp hpe hpp
      · rw [if_neg hxid]; exact hinv.pe_range x hx
    · intro t' ht'
      obtain ⟨x, hx, rfl⟩ := List.mem_map.mp ht'
      by_cases hxid : x.id = id
      · rw [if_pos hxid]; exact hinv.pp_range x hx
      · rw [if_neg hxid]; exact hinv.pp_range x hx
    · intro t' ht'
      obtain ⟨x, hx, rfl⟩ := List.mem_map.mp ht'
      by_cases hxid : x.id = id
      · rw [if_pos hxid]; simp
      · rw [if_neg hxid]; exact hinv.ciso x hx
    · rcases htp : t.pointsPossible with _ | pp0
      · intro g hg tid hgt
        obtain ⟨x, hx, hxid, hxdone, pe, pp, hxe, hxp, hppos, hse, hst⟩ := hinv.link g hg tid hgt
        by_cases hxI : x.id = id
        · have hxt : x = t := task_id_unique hinv.nodup hx htmem (by rw [hxI, htid])
          rw [hxt] at hxp
          rw [htp] at hxp
          cases hxp
        · refine ⟨x, List.mem_map.mpr ⟨x, hx, if_neg hxI⟩, hxid, hxdone,
            pe, pp, hxe, hxp, hppos, hse, hst⟩
      · cases hE : donePtsEarned earned t.pointsEarned (some pp0) with
        | none => exact absurd hE (donePtsEarned_isSome pp0)
        | some e' =>
        dsimp only
        have he'b : 0 ≤ e' ∧ e' ≤ pp0 := hEb e' pp0 (by rw [htp]; exact hE) htp
        by_cases hpos : 0 < pp0
        · rw [if_pos hpos]
          have hitem : ∀ itemId created,
              ∀ tid, (derivedItem itemId id t.courseId t.title e' pp0 t.dueISO created).taskId
                = some tid →
              ∃ t2 ∈ s.tasks.map (fun x =>
                if x.id = id then
                  { x with
                      done := true
                      pointsEarned := some e'
                      completedISO := some nowISO }
                else x),
                t2.id = tid ∧ t2.done = true ∧
                ∃ pe pp, t2.pointsEarned = some pe ∧ t2.pointsPossible = some pp ∧ 0 < pp ∧
                  (derivedItem itemId id t.courseId t.title e' pp0 t.dueISO created).scoreEarned
                    = pe ∧
                  (derivedItem itemId id t.courseId t.title e' pp0 t.dueISO created).scoreTotal
                    = pp := by
            intro itemId created tid hgt
            have htid2 : tid = id := by simpa [derivedItem] using hgt.symm
            subst htid2
            refine ⟨{ t with
                done := true
                pointsEarned := some e'
                completedISO := some nowISO },
              List.mem_map.mpr ⟨t, htmem, by rw [if_pos htid]⟩, htid, rfl, e', pp0, rfl, htp,
              hpos, ?_, rfl⟩
            show clamp e' 0 pp0 = e'
            exact clamp_eq_of_mem he'b.1 he'b.2
          have hold : ∀ g ∈ s.grades, ¬ g.taskId = some id → ∀ tid, g.taskId = some tid →
              ∃ t2 ∈ s.tasks.map (fun x =>
                if x.id = id then
                  { x with
                      done := true
                      pointsEarned := some e'
                      completedISO := some nowISO }
                else x),
                t2.id = tid ∧ t2.done = true ∧
                ∃ pe pp, t2.pointsEarned = some pe ∧ t2.pointsPossible = some pp ∧ 0 < pp ∧
                  g.scoreEarned = pe ∧ g.scoreTotal = pp := by
            intro g hg hgI tid hgt
            obtain ⟨x, hx, hxid, hrest⟩ := hinv.link g hg tid hgt
            have hxne : ¬ x.id = id := fun h => hgI (by rw [hgt, ← hxid, h])
            exact ⟨x, List.mem_map.mpr ⟨x, hx, if_neg hxne⟩, hxid, hrest⟩
          cases hgf : s.grades.find? (fun g => g.taskId = some id) with
          | some ex =>
            intro g hg tid hgt
            obtain ⟨g0, hg0, rfl⟩ := List.mem_map.mp hg
            by_cases hg0t : g0.taskId = some id
            · rw [if_pos hg0t] at hgt ⊢
              exact hitem ex.id (ex.createdISO.getD nowISO) tid hgt
            · rw [if_neg hg0t] at hgt ⊢
              exact hold g0 hg0 hg0t tid hgt
          | none =>
            intro g hg tid hgt
            rcases List.mem_cons.mp hg with rfl | hg2
            · exact hitem gradeId nowISO tid hgt
            · have hg0t : ¬ g.taskId = some id := by
                have := List.find?_eq_none.mp hgf g hg2
                simpa using this
              exact hold g hg2 hg0t tid hgt
        · rw [if_neg hpos]
          intro g hg tid hgt
          obtain ⟨x, hx, hxid, hxdone, pe, pp, hxe, hxp, hppos, hse, hst⟩ :=
            hinv.link g hg tid hgt
          by_cases hxI : x.id = id
          · have hxt : x = t := task_id_unique hinv.nodup hx htmem (by rw [hxI, htid])
            rw [hxt, htp] at hxp
            cases hxp
            exact absurd hppos hpos
          · refine ⟨x, List.mem_map.mpr ⟨x, hx, if_neg hxI⟩, hxid, hxdone,
              pe, pp, hxe, hxp, hppos, hse, hst⟩

theorem inv_confirmComplete {s : AppState} (hinv : Inv s) (id : String) (entered : Option ℚ)
    (nowISO gradeId : String) :
    Inv (confirmComplete s id entered nowISO gradeId) := by
  unfold confirmComplete
  split
  · exact hinv
  rename_i t hf
  dsimp only
  apply inv_applyTaskDone hinv id true _ nowISO gradeId
  intro e he x hx hxid pp hpp
  cases he
  have hxt : x = t := task_id_unique hinv.nodup hx (find?_task hf).1
    (by rw [hxid, (find?_task hf).2])
  subst hxt
  simp only [hpp, Option.getD_some]
  exact ⟨le_clamp _ _ _, clamp_le _ (hinv.pp_range x hx pp hpp).1⟩

theorem editNextEarned_eq_some {taskPe pts : Option ℚ} {e : ℚ}
    (h : editNextEarned taskPe pts = some e) : ∃ pe0, taskPe = some pe0 := by
  rcases taskPe with _ | pe0
  · rw [editNextEarned_none] at h
    cases h
  · exact ⟨pe0, rfl⟩

theorem inv_saveTaskEdit {s : AppState} (hinv : Inv s) (editingTaskId taskTitle : String)
    (taskCourse : Option String) (dueISO : Option String) (priority : Priority)
    (notes : Option String) (tags : Option (List String)) (estRaw ptsRaw : Option ℤ)
    (gradeId nowISO : String) :
    Inv (saveTaskEdit s editingTaskId taskTitle taskCourse dueISO priority notes tags
      estRaw ptsRaw gradeId nowISO) := by
  unfold saveTaskEdit
  split
  · exact hinv
  dsimp only
  split
  · -- no task with the edited id exists: the map is the identity on members
    rename_i hgl
    have hnone : ∀ x ∈ s.tasks, ¬ x.id = editingTaskId := by
      intro x hx hxid
      have hnil : s.tasks.filter (fun t => t.id = editingTaskId) = [] :=
        List.getLast?_eq_none_iff.mp hgl
      have hmem : x ∈ s.tasks.filter (fun t => t.id = editingTaskId) :=
        List.mem_filter.mpr ⟨hx, by simpa using hxid⟩
      rw [hnil] at hmem
      cases hmem
    refine ⟨?_, ?_, ?_, ?_, ?_, ?_⟩
    · exact pairwise_ids_map (fun x => by split <;> rfl) hinv.nodup
    · intro t' ht'
      obtain ⟨x, hx, rfl⟩ := List.mem_map.mp ht'
      rw [if_neg (hnone x hx)]
      exact hinv.pe_done x hx
    · intro t' ht'
      obtain ⟨x, hx, rfl⟩ := List.mem_map.mp ht'
      rw [if_neg (hnone x hx)]
      exact hinv.pe_range x hx
    · intro t' ht'
      obtain ⟨x, hx, rfl⟩ := List.mem_map.mp ht'
      rw [if_neg (hnone x hx)]
      exact hinv.pp_range x hx
    · intro t' ht'
      obtain ⟨x, hx, rfl⟩ := List.mem_map.mp ht'
      rw [if_neg (hnone x hx)]
      exact hinv.ciso x hx
    · intro g hg tid hgt
      obtain ⟨x, hx, hxid, hrest⟩ := hinv.link g hg tid hgt
      exact ⟨x, List.mem_map.mpr ⟨x, hx, if_neg (hnone x hx)⟩, hxid, hrest⟩
  · -- the edited task exists
    rename_i t0 hgl
    obtain ⟨ht0mem, ht0id⟩ := getLast?_filter_task hgl
    refine ⟨?_, ?_, ?_, ?_, ?_, ?_⟩
    · exact pairwise_ids_map (fun x => by split <;> rfl) hinv.nodup
    · intro t' ht'
      obtain ⟨x, hx, rfl⟩ := List.mem_map.mp ht'
      by_cases hxid : x.id = editingTaskId
      · rw [if_pos hxid]
        intro hne
        show x.done = true
        have hpe : ¬ x.pointsEarned = none := by
          intro hxe
          apply hne
          show editNextEarned x.pointsEarned _ = none
          rw [hxe, editNextEarned_none]
        exact hinv.pe_done x hx hpe
      · rw [if_neg hxid]
        exact hinv.pe_done x hx
    · intro t' ht'
      obtain ⟨x, hx, rfl⟩ := List.mem_map.mp ht'
      by_cases hxid : x.id = editingTaskId
      · rw [if_pos hxid]
        intro pe pp hpe hpp
        rcases ptsRaw with _ | n
        · cases show (none : Option ℚ) = some pp from hpp
        · have hpp2 : some (clamp ((n : ℤ) : ℚ) 0 999999) = some pp := hpp
          injection hpp2 with hpp2
          subst hpp2
          exact editNextEarned_bounds (le_clamp _ _ _) pe
            (show editNextEarned x.pointsEarned (some (clamp ((n : ℤ) : ℚ) 0 999999))
              = some pe from hpe)
      · rw [if_neg hxid]
        exact hinv.pe_range x hx
    · intro t' ht'
      obtain ⟨x, hx, rfl⟩ := List.mem_map.mp ht'
      by_cases hxid : x.id = editingTaskId
      · rw [if_pos hxid]
        intro pp hpp
        rcases ptsRaw with _ | n
        · cases show (none : Option ℚ) = some pp from hpp
        · have hpp2 : some (clamp ((n : ℤ) : ℚ) 0 999999) = some pp := hpp
          injection hpp2 with hpp2
          subst hpp2
          exact ⟨le_clamp _ _ _, clamp_le _ (by norm_num)⟩
      · rw [if_neg hxid]
        exact hinv.pp_range x hx
    · intro t' ht'
      obtain ⟨x, hx, rfl⟩ := List.mem_map.mp ht'
      by_cases hxid : x.id = editingTaskId
      · rw [if_pos hxid]
        exact hinv.ciso x hx
      · rw [if_neg hxid]
        exact hinv.ciso x hx
    · -- the link invariant, by cases on the grade re-derivation
      have hold2 : ∀ g ∈ s.grades, ¬ g.taskId = some editingTaskId →
          ∀ tid, g.taskId = some tid →
          ∃ t' ∈ s.tasks.map (fun t => if t.id = editingTaskId then
              updateTaskFields taskTitle taskCourse dueISO priority notes tags
                (estRaw.map (fun n : ℤ => clamp (n : ℚ) 0 9999))
                (ptsRaw.map (fun n : ℤ => clamp (n : ℚ) 0 999999)) t
            else t),
            t'.id = tid ∧ t'.done = true ∧
            ∃ pe pp, t'.pointsEarned = some pe ∧ t'.pointsPossible = some pp ∧ 0 < pp ∧
              g.scoreEarned = pe ∧ g.scoreTotal = pp := by
        intro g hg hgI tid hgt
        obtain ⟨x, hx, hxid, hrest⟩ := hinv.link g hg tid hgt
        have hxne : ¬ x.id = editingTaskId := fun h => hgI (by rw [hgt, ← hxid, h])
        exact ⟨x, List.mem_map.mpr ⟨x, hx, if_neg hxne⟩, hxid, hrest⟩
      have hfilter : ∀ g ∈ s.grades.filter (fun g => ¬ g.taskId = some editingTaskId),
          ∀ tid, g.taskId = some tid →
          ∃ t' ∈ s.tasks.map (fun t => if t.id = editingTaskId then
              updateTaskFields taskTitle taskCourse dueISO priority notes tags
                (estRaw.map (fun n : ℤ => clamp (n : ℚ) 0 9999))
                (ptsRaw.map (fun n : ℤ => clamp (n : ℚ) 0 999999)) t
            else t),
            t'.id = tid ∧ t'.done = true ∧
            ∃ pe pp, t'.pointsEarned = some pe ∧ t'.pointsPossible = some pp ∧ 0 < pp ∧
              g.scoreEarned = pe ∧ g.scoreTotal = pp := by
        intro g hg
        have hg2 := List.mem_filter.mp hg
        exact hold2 g hg2.1 (by simpa using hg2.2)
      by_cases hdone : t0.done = true
      · rw [if_pos (show (updateTaskFields taskTitle taskCourse dueISO priority notes tags
            (estRaw.map (fun n : ℤ => clamp (n : ℚ) 0 9999))
            (ptsRaw.map (fun n : ℤ => clamp (n : ℚ) 0 999999)) t0).done = true from hdone)]
        rcases ptsRaw with _ | n
        · exact hfilter
        · cases hE2 : editNextEarned t0.pointsEarned (some (clamp ((n : ℤ) : ℚ) 0 999999)) with
          | none =>
            have hred : (updateTaskFields taskTitle taskCourse dueISO priority notes tags
                (estRaw.map (fun n : ℤ => clamp (n : ℚ) 0 9999))
                ((some n).map (fun n : ℤ => clamp (n : ℚ) 0 999999)) t0).pointsEarned
                = none := hE2
            rw [show ((some n).map (fun n : ℤ => clamp (n : ℚ) 0 999999))
              = some (clamp ((n : ℤ) : ℚ) 0 999999) from rfl]
            dsimp only [updateTaskFields]
            rw [hE2]
            dsimp only
            exact hfilter
          | some e' =>
            have hb2 : 0 ≤ e' ∧ e' ≤ clamp ((n : ℤ) : ℚ) 0 999999 :=
              editNextEarned_bounds (le_clamp _ _ _) e' hE2
            rw [show ((some n).map (fun n : ℤ => clamp (n : ℚ) 0 999999))
              = some (clamp ((n : ℤ) : ℚ) 0 999999) from rfl]
            dsimp only [updateTaskFields]
            rw [hE2]
            dsimp only
            by_cases hpos : 0 < clamp ((n : ℤ) : ℚ) 0 999999
            · rw [if_pos hpos]
              have hitem2 : ∀ itemId created tid,
                  (derivedItem itemId editingTaskId taskCourse (jsTrim taskTitle) e'
                    (clamp ((n : ℤ) : ℚ) 0 999999) dueISO created).taskId = some tid →
                  ∃ t' ∈ s.tasks.map (fun t => if t.id = editingTaskId then
                      updateTaskFields taskTitle taskCourse dueISO priority notes tags
                        (estRaw.map (fun n : ℤ => clamp (n : ℚ) 0 9999))
                        (some (clamp ((n : ℤ) : ℚ) 0 999999)) t
                    else t),
                    t'.id = tid ∧ t'.done = true ∧
                    ∃ pe pp, t'.pointsEarned = some pe ∧ t'.pointsPossible = some pp ∧ 0 < pp ∧
                      (derivedItem itemId editingTaskId taskCourse (jsTrim taskTitle) e'
                        (clamp ((n : ℤ) : ℚ) 0 999999) dueISO created).scoreEarned = pe ∧
                      (derivedItem itemId editingTaskId taskCourse (jsTrim taskTitle) e'
                        (clamp ((n : ℤ) : ℚ) 0 999999) dueISO created).scoreTotal = pp := by
                intro itemId created tid hgt
                have htid2 : tid = editingTaskId := by simpa [derivedItem] using hgt.symm
                subst htid2
                refine ⟨updateTaskFields taskTitle taskCourse dueISO priority notes tags
                    (estRaw.map (fun n : ℤ => clamp (n : ℚ) 0 9999))
                    (some (clamp ((n : ℤ) : ℚ) 0 999999)) t0,
                  List.mem_map.mpr ⟨t0, ht0mem, by rw [if_pos ht0id]⟩, ht0id, hdone,
                  e', clamp ((n : ℤ) : ℚ) 0 999999, hE2, rfl, hpos, ?_, rfl⟩
                show clamp e' 0 (clamp ((n : ℤ) : ℚ) 0 999999) = e'
                exact clamp_eq_of_mem hb2.1 hb2.2
              cases hgf : s.grades.find? (fun g => g.taskId = some editingTaskId) with
              | some ex =>
                intro g hg tid hgt
                obtain ⟨g0, hg0, rfl⟩ := List.mem_map.mp hg
                by_cases hg0t : g0.taskId = some editingTaskId
                · rw [if_pos hg0t] at hgt ⊢
                  exact hitem2 ex.id (ex.createdISO.getD nowISO) tid hgt
                · rw [if_neg hg0t] at hgt ⊢
                  exact hold2 g0 hg0 hg0t tid hgt
              | none =>
                intro g hg tid hgt
                rcases List.mem_cons.mp hg with rfl | hg2
                · exact hitem2 gradeId nowISO tid hgt
                · have hg0t : ¬ g.taskId = some editingTaskId := by
                    have := List.find?_eq_none.mp hgf g hg2
                    simpa using this
                  exact hold2 g hg2 hg0t tid hgt
            · rw [if_neg hpos]
              exact hfilter
      · rw [if_neg (show ¬ (updateTaskFields taskTitle taskCourse dueISO priority notes tags
            (estRaw.map (fun n : ℤ => clamp (n : ℚ) 0 9999))
            (ptsRaw.map (fun n : ℤ => clamp (n : ℚ) 0 999999)) t0).done = true from hdone)]
        intro g hg tid hgt
        obtain ⟨x, hx, hxid, hxdone, hrest⟩ := hinv.link g hg tid hgt
        by_cases hxI : x.id = editingTaskId
        · have hxt : x = t0 := task_id_unique hinv.nodup hx ht0mem (by rw [hxI, ht0id])
          rw [hxt] at hxdone
          exact absurd hxdone hdone
        · exact ⟨x, List.mem_map.mpr ⟨x, hx, if_neg hxI⟩, hxid, hxdone, hrest⟩

theorem invFull_deleteTask {s : AppState} (hinv : InvFull s) (id : String) :
    InvFull (deleteTask s id) := by
  refine ⟨inv_deleteTask hinv.toInv id, ?_⟩
  intro t' ht' hdone pp hpp hpos hpe
  have ht2 := List.mem_filter.mp ht'
  have htne : ¬ t'.id = id := by simpa using ht2.2
  obtain ⟨g, hg, hgt⟩ := hinv.cover t' ht2.1 hdone pp hpp hpos hpe
  refine ⟨g, List.mem_filter.mpr ⟨hg, ?_⟩, hgt⟩
  have : ¬ g.taskId = some id := by
    rw [hgt]; intro hc; injection hc with hc; exact htne hc
  simpa using this

theorem invFull_addCourse {s : AppState} (hinv : InvFull s)
    (courseId courseNameInput courseColor : String) (creditsRaw : Option ℤ) :
    InvFull (addCourse s courseId courseNameInput courseColor creditsRaw) := by
  refine ⟨inv_addCourse hinv.toInv courseId courseNameInput courseColor creditsRaw, ?_⟩
  unfold addCourse
  split
  · exact hinv.cover
  · exact hinv.cover

theorem invFull_addGrade {s : AppState} (hinv : InvFull s) (gradeId gradeName : String)
    (gradeCourse : Option String) (earned total weightRaw : Option ℚ)
    (dueISO : Option String) (nowISO : String) :
    InvFull (addGrade s gradeId gradeName gradeCourse earned total weightRaw dueISO nowISO) := by
  refine ⟨inv_addGrade hinv.toInv gradeId gradeName gradeCourse earned total weightRaw
    dueISO nowISO, ?_⟩
  unfold addGrade
  split
  · exact hinv.cover
  · split
    · split
      · exact hinv.cover
      · intro t' ht' hdone pp hpp hpos hpe
        obtain ⟨g, hg, hgt⟩ := hinv.cover t' ht' hdone pp hpp hpos hpe
        exact ⟨g, List.mem_cons_of_mem _ hg, hgt⟩
    · exact hinv.cover

theorem invFull_deleteCourse {s : AppState} (hinv : InvFull s) (id : String) :
    InvFull (deleteCourse s id) := by
  refine ⟨inv_deleteCourse hinv.toInv id, ?_⟩
  intro t' ht' hdone pp hpp hpos hpe
  obtain ⟨x, hx, rfl⟩ := List.mem_map.mp ht'
  have hxdone : x.done = true := by revert hdone; split <;> exact fun h => h
  have hxpp : x.pointsPossible = some pp := by revert hpp; split <;> exact fun h => h
  have hxpe : ¬ x.pointsEarned = none := by revert hpe; split <;> exact fun h => h
  obtain ⟨g, hg, hgt⟩ := hinv.cover x hx hxdone pp hxpp hpos hxpe
  refine ⟨if g.courseId = some id then { g with courseId := none } else g,
    List.mem_map.mpr ⟨g, hg, rfl⟩, ?_⟩
  have hid : ((if x.courseId = some id then { x with courseId := none } else x) : Task).id
      = x.id := by split <;> rfl
  rw [hid]
  revert hgt
  split <;> exact fun h => h

theorem invFull_saveTaskNew {s : AppState} (hinv : InvFull s) (taskId taskTitle : String)
    (taskCourse : Option String) (dueISO : Option String) (priority : Priority)
    (notes : Option String) (tags : Option (List String)) (estRaw ptsRaw : Option ℤ)
    (nowISO : String) (hfresh : ∀ t ∈ s.tasks, t.id ≠ taskId) :
    InvFull (saveTaskNew s taskId taskTitle taskCourse dueISO priority notes tags
      estRaw ptsRaw nowISO) := by
  refine ⟨inv_saveTaskNew hinv.toInv taskId taskTitle taskCourse dueISO priority notes tags
    estRaw ptsRaw nowISO hfresh, ?_⟩
  unfold saveTaskNew
  split
  · exact hinv.cover
  · intro t' ht' hdone pp hpp hpos hpe
    rcases List.mem_cons.mp ht' with rfl | ht2
    · cases hdone
    · exact hinv.cover t' ht2 hdone pp hpp hpos hpe

theorem invFull_applyTaskDone {s : AppState} (hinv : InvFull s) (id : String) (b : Bool)
    (earned : Option ℚ) (nowISO gradeId : String)
    (hok : ∀ e, earned = some e → ∀ t ∈ s.tasks, t.id = id → ∀ pp,
      t.pointsPossible = some pp → 0 ≤ e ∧ e ≤ pp) :
    InvFull (applyTaskDone s id b earned nowISO gradeId) := by
  refine ⟨inv_applyTaskDone hinv.toInv id b earned nowISO gradeId hok, ?_⟩
  unfold applyTaskDone
  split
  · exact hinv.cover
  rename_i t hf
  obtain ⟨htmem, htid⟩ := find?_task hf
  by_cases hb : b = false
  · rw [if_pos hb]
    intro t' ht' hdone' pp hpp hpos hpe
    obtain ⟨x, hx, rfl⟩ := List.mem_map.mp ht'
    by_cases hxid : x.id = id
    · rw [if_pos hxid] at hdone'
      cases hdone'
    · rw [if_neg hxid] at hdone' hpp hpe ⊢
      obtain ⟨g, hg, hgt⟩ := hinv.cover x hx hdone' pp hpp hpos hpe
      refine ⟨g, List.mem_filter.mpr ⟨hg, ?_⟩, hgt⟩
      have : ¬ g.taskId = some id := by
        rw [hgt]; intro hc; injection hc with hc; exact hxid hc
      simpa using this
  · rw [if_neg hb]
    dsimp only
    intro t' ht' hdone' pp hpp hpos hpe
    obtain ⟨x, hx, rfl⟩ := List.mem_map.mp ht'
    by_cases hxid : x.id = id
    · have hxt : x = t := task_id_unique hinv.nodup hx htmem (by rw [hxid, htid])
      subst hxt
      rw [if_pos hxid] at hpp ⊢
      have hpp2 : x.pointsPossible = some pp := hpp
      rcases htp : x.pointsPossible with _ | pp0
      · rw [htp] at hpp2; cases hpp2
      · rw [htp] at hpp2
        injection hpp2 with hpp2
        subst hpp2
        cases hE : donePtsEarned earned x.pointsEarned (some pp0) with
        | none => exact absurd hE (donePtsEarned_isSome pp0)
        | some e' =>
          dsimp only
          rw [if_pos hpos]
          cases hgf : s.grades.find? (fun g => g.taskId = some id) with
          | some ex =>
            refine ⟨derivedItem ex.id id x.courseId x.title e' pp0 x.dueISO
                (ex.createdISO.getD nowISO),
              List.mem_map.mpr ⟨ex, (find?_grade hgf).1, by rw [if_pos (find?_grade hgf).2]⟩, ?_⟩
            simp [derivedItem, hxid]
          | none =>
            refine ⟨derivedItem gradeId id x.courseId x.title e' pp0 x.dueISO nowISO,
              List.mem_cons_self _ _, ?_⟩
            simp [derivedItem, hxid]
    · rw [if_neg hxid] at hdone' hpp hpe ⊢
      obtain ⟨g, hg, hgt⟩ := hinv.cover x hx hdone' pp hpp hpos hpe
      have hgne : ¬ g.taskId = some id := by
        rw [hgt]; intro hc; injection hc with hc; exact hxid hc
      rcases htp : t.pointsPossible with _ | pp0
      · exact ⟨g, hg, hgt⟩
      · cases hE : donePtsEarned earned t.pointsEarned (some pp0) with
        | none => exact absurd hE (donePtsEarned_isSome pp0)
        | some e' =>
          dsimp only
          by_cases hpos0 : 0 < pp0
          · rw [if_pos hpos0]
            cases hgf : s.grades.find? (fun g => g.taskId = some id) with
            | some ex => exact ⟨g, List.mem_map.mpr ⟨g, hg, if_neg hgne⟩, hgt⟩
            | none => exact ⟨g, List.mem_cons_of_mem _ hg, hgt⟩
          · rw [if_neg hpos0]
            exact ⟨g, hg, hgt⟩

theorem invFull_confirmComplete {s : AppState} (hinv : InvFull s) (id : String)
    (entered : Option ℚ) (nowISO gradeId : String) :
    InvFull (confirmComplete s id entered nowISO gradeId) := by
  unfold confirmComplete
  split
  · exact hinv
  rename_i t hf
  dsimp only
  apply invFull_applyTaskDone hinv id true _ nowISO gradeId
  intro e he x hx hxid pp hpp
  cases he
  have hxt : x = t := task_id_unique hinv.nodup hx (find?_task hf).1
    (by rw [hxid, (find?_task hf).2])
  subst hxt
  simp only [hpp, Option.getD_some]
  exact ⟨le_clamp _ _ _, clamp_le _ (hinv.pp_range x hx pp hpp).1⟩

theorem invFull_saveTaskEdit {s : AppState} (hinv : InvFull s) (editingTaskId taskTitle : String)
    (taskCourse : Option String) (dueISO : Option String) (priority : Priority)
    (notes : Option String) (tags : Option (List String)) (estRaw ptsRaw : Option ℤ)
    (gradeId nowISO : String) :
    InvFull (saveTaskEdit s editingTaskId taskTitle taskCourse dueISO priority notes tags
      estRaw ptsRaw gradeId nowISO) := by
  refine ⟨inv_saveTaskEdit hinv.toInv editingTaskId taskTitle taskCourse dueISO priority notes
    tags estRaw ptsRaw gradeId nowISO, ?_⟩
  unfold saveTaskEdit
  split
  · exact hinv.cover
  dsimp only
  split
  · -- no matching task: map is the identity on members, grades unchanged
    rename_i hgl
    have hnone : ∀ x ∈ s.tasks, ¬ x.id = editingTaskId := by
      intro x hx hxid
      have hnil : s.tasks.filter (fun t => t.id = editingTaskId) = [] :=
        List.getLast?_eq_none_iff.mp hgl
      have hmem : x ∈ s.tasks.filter (fun t => t.id = editingTaskId) :=
        List.mem_filter.mpr ⟨hx, by simpa using hxid⟩
      rw [hnil] at hmem
      cases hmem
    intro t' ht' hdone pp hpp hpos hpe
    obtain ⟨x, hx, rfl⟩ := List.mem_map.mp ht'
    rw [if_neg (hnone x hx)] at hdone hpp hpe ⊢
    exact hinv.cover x hx hdone pp hpp hpos hpe
  · rename_i t0 hgl
    obtain ⟨ht0mem, ht0id⟩ := getLast?_filter_task hgl
    by_cases hdone0 : t0.done = true
    · rw [if_pos (show (updateTaskFields taskTitle taskCourse dueISO priority notes tags
          (estRaw.map (fun n : ℤ => clamp (n : ℚ) 0 9999))
          (ptsRaw.map (fun n : ℤ => clamp (n : ℚ) 0 999999)) t0).done = true from hdone0)]
      rcases ptsRaw with _ | n
      · -- points cleared: every matching task loses pointsPossible
        intro t' ht' hdone pp hpp hpos hpe
        obtain ⟨x, hx, rfl⟩ := List.mem_map.mp ht'
        by_cases hxid : x.id = editingTaskId
        · rw [if_pos hxid] at hpp
          cases show (none : Option ℚ) = some pp from hpp
        · rw [if_neg hxid] at hdone hpp hpe ⊢
          obtain ⟨g, hg, hgt⟩ := hinv.cover x hx hdone pp hpp hpos hpe
          have hgne : ¬ g.taskId = some editingTaskId := by
            rw [hgt]; intro hc; injection hc with hc; exact hxid hc
          dsimp only [updateTaskFields]
          refine ⟨g, List.mem_filter.mpr ⟨hg, by simpa using hgne⟩, hgt⟩
      · cases hE2 : editNextEarned t0.pointsEarned (some (clamp ((n : ℤ) : ℚ) 0 999999)) with
        | none =>
          rw [show ((some n).map (fun n : ℤ => clamp (n : ℚ) 0 999999))
            = some (clamp ((n : ℤ) : ℚ) 0 999999) from rfl]
          dsimp only [updateTaskFields]
          rw [hE2]
          dsimp only
          intro t' ht' hdone pp hpp hpos hpe
          obtain ⟨x, hx, rfl⟩ := List.mem_map.mp ht'
          by_cases hxid : x.id = editingTaskId
          · have hxt : x = t0 := task_id_unique hinv.nodup hx ht0mem (by rw [hxid, ht0id])
            rw [if_pos hxid] at hpe
            apply absurd _ hpe
            show editNextEarned x.pointsEarned (some (clamp ((n : ℤ) : ℚ) 0 999999)) = none
            rw [hxt]
            exact hE2
          · rw [if_neg hxid] at hdone hpp hpe ⊢
            obtain ⟨g, hg, hgt⟩ := hinv.cover x hx hdone pp hpp hpos hpe
            have hgne : ¬ g.taskId = some editingTaskId := by
              rw [hgt]; intro hc; injection hc with hc; exact hxid hc
            exact ⟨g, List.mem_filter.mpr ⟨hg, by simpa using hgne⟩, hgt⟩
        | some e' =>
          rw [show ((some n).map (fun n : ℤ => clamp (n : ℚ) 0 999999))
            = some (clamp ((n : ℤ) : ℚ) 0 999999) from rfl]
          dsimp only [updateTaskFields]
          rw [hE2]
          dsimp only
          by_cases hpos0 : 0 < clamp ((n : ℤ) : ℚ) 0 999999
          · rw [if_pos hpos0]
            intro t' ht' hdone pp hpp hpos hpe
            obtain ⟨x, hx, rfl⟩ := List.mem_map.mp ht'
            by_cases hxid : x.id = editingTaskId
            · rw [if_pos hxid]
              cases hgf : s.grades.find? (fun g => g.taskId = some editingTaskId) with
              | some ex =>
                refine ⟨derivedItem ex.id editingTaskId taskCourse (jsTrim taskTitle) e'
                    (clamp ((n : ℤ) : ℚ) 0 999999) dueISO (ex.createdISO.getD nowISO),
                  List.mem_map.mpr ⟨ex, (find?_grade hgf).1,
                    by rw [if_pos (find?_grade hgf).2]⟩, ?_⟩
                simp [derivedItem, hxid]
              | none =>
                refine ⟨derivedItem gradeId editingTaskId taskCourse (jsTrim taskTitle) e'
                    (clamp ((n : ℤ) : ℚ) 0 999999) dueISO nowISO,
                  List.mem_cons_self _ _, ?_⟩
                simp [derivedItem, hxid]
            · rw [if_neg hxid] at hdone hpp hpe ⊢
              obtain ⟨g, hg, hgt⟩ := hinv.cover x hx hdone pp hpp hpos hpe
              have hgne : ¬ g.taskId = some editingTaskId := by
                rw [hgt]; intro hc; injection hc with hc; exact hxid hc
              cases hgf : s.grades.find? (fun g => g.taskId = some editingTaskId) with
              | some ex => exact ⟨g, List.mem_map.mpr ⟨g, hg, if_neg hgne⟩, hgt⟩
              | none => exact ⟨g, List.mem_cons_of_mem _ hg, hgt⟩
          · rw [if_neg hpos0]
            intro t' ht' hdone pp hpp hpos hpe
            obtain ⟨x, hx, rfl⟩ := List.mem_map.mp ht'
            by_cases hxid : x.id = editingTaskId
            · have hxt : x = t0 := task_id_unique hinv.nodup hx ht0mem (by rw [hxid, ht0id])
              rw [if_pos hxid] at hpp
              have hpp2 : some (clamp ((n : ℤ) : ℚ) 0 999999) = some pp := hpp
              injection hpp2 with hpp2
              subst hpp2
              exact absurd hpos hpos0
            · rw [if_neg hxid] at hdone hpp hpe ⊢
              obtain ⟨g, hg, hgt⟩ := hinv.cover x hx hdone pp hpp hpos hpe
              have hgne : ¬ g.taskId = some editingTaskId := by
                rw [hgt]; intro hc; injection hc with hc; exact hxid hc
              exact ⟨g, List.mem_filter.mpr ⟨hg, by simpa using hgne⟩, hgt⟩
    · rw [if_neg (show ¬ (updateTaskFields taskTitle taskCourse dueISO priority notes tags
          (estRaw.map (fun n : ℤ => clamp (n : ℚ) 0 9999))
          (ptsRaw.map (fun n : ℤ => clamp (n : ℚ) 0 999999)) t0).done = true from hdone0)]
      intro t' ht' hdone pp hpp hpos hpe
      obtain ⟨x, hx, rfl⟩ := List.mem_map.mp ht'
      by_cases hxid : x.id = editingTaskId
      · have hxt : x = t0 := task_id_unique hinv.nodup hx ht0mem (by rw [hxid, ht0id])
        rw [if_pos hxid] at hdone
        have : t0.done = true := by rw [← hxt]; exact hdone
        exact absurd this hdone0
      · rw [if_neg hxid] at hdone hpp hpe ⊢
        exact hinv.cover x hx hdone pp hpp hpos hpe

theorem inv_step {dg : Bool} {s s2 : AppState} (h : Step dg s s2) (hinv : Inv s) : Inv s2 := by
  cases h with
  | saveNew taskId taskTitle taskCourse dueISO priority notes tags estRaw ptsRaw nowISO
      hfresh hlink =>
    exact inv_saveTaskNew hinv taskId taskTitle taskCourse dueISO priority notes tags
      estRaw ptsRaw nowISO hfresh
  | saveEdit editingTaskId taskTitle taskCourse dueISO priority notes tags estRaw ptsRaw
      gradeId nowISO =>
    exact inv_saveTaskEdit hinv editingTaskId taskTitle taskCourse dueISO priority notes tags
      estRaw ptsRaw gradeId nowISO
  | markDone id nowISO gradeId =>
    exact inv_applyTaskDone hinv id true none nowISO gradeId (by intro e he; cases he)
  | undo id nowISO gradeId =>
    exact inv_applyTaskDone hinv id false none nowISO gradeId (by intro e he; cases he)
  | confirm id entered nowISO gradeId =>
    exact inv_confirmComplete hinv id entered nowISO gradeId
  | delTask id => exact inv_deleteTask hinv id
  | newCourse courseId courseNameInput courseColor creditsRaw =>
    exact inv_addCourse hinv courseId courseNameInput courseColor creditsRaw
  | delCourse id => exact inv_deleteCourse hinv id
  | newGrade gradeId gradeName gradeCourse earned total weightRaw dueISO nowISO =>
    exact inv_addGrade hinv gradeId gradeName gradeCourse earned total weightRaw dueISO nowISO
  | delGrade id => exact inv_deleteGrade hinv id

theorem invFull_step {s s2 : AppState} (h : Step false s s2) (hinv : InvFull s) : InvFull s2 := by
  cases h with
  | saveNew taskId taskTitle taskCourse dueISO priority notes tags estRaw ptsRaw nowISO
      hfresh hlink =>
    exact invFull_saveTaskNew hinv taskId taskTitle taskCourse dueISO priority notes tags
      estRaw ptsRaw nowISO hfresh
  | saveEdit editingTaskId taskTitle taskCourse dueISO priority notes tags estRaw ptsRaw
      gradeId nowISO =>
    exact invFull_saveTaskEdit hinv editingTaskId taskTitle taskCourse dueISO priority notes
      tags estRaw ptsRaw gradeId nowISO
  | markDone id nowISO gradeId =>
    exact invFull_applyTaskDone hinv id true none nowISO gradeId (by intro e he; cases he)
  | undo id nowISO gradeId =>
    exact invFull_applyTaskDone hinv id false none nowISO gradeId (by intro e he; cases he)
  | confirm id entered nowISO gradeId =>
    exact invFull_confirmComplete hinv id entered nowISO gradeId
  | delTask id => exact invFull_deleteTask hinv id
  | newCourse courseId courseNameInput courseColor creditsRaw =>
    exact invFull_addCourse hinv courseId courseNameInput courseColor creditsRaw
  | delCourse id => exact invFull_deleteCourse hinv id
  | newGrade gradeId gradeName gradeCourse earned total weightRaw dueISO nowISO =>
    exact invFull_addGrade hinv gradeId gradeName gradeCourse earned total weightRaw
      dueISO nowISO

theorem inv_reachable {dg : Bool} {s : AppState} (h : Reachable dg s) : Inv s := by
  induction h with
  | refl => exact inv_default
  | tail _ hstep ih => exact inv_step hstep ih

theorem invFull_reachable {s : AppState} (h : Reachable false s) : InvFull s := by
  induction h with
  | refl => exact invFull_default
  | tail _ hstep ih => exact invFull_step hstep ih

theorem step_mono {s s2 : AppState} (h : Step false s s2) : Step true s s2 := by
  cases h with
  | saveNew taskId taskTitle taskCourse dueISO priority notes tags estRaw ptsRaw nowISO
      hfresh hlink =>
    exact Step.saveNew taskId taskTitle taskCourse dueISO priority notes tags estRaw ptsRaw
      nowISO hfresh hlink
  | saveEdit editingTaskId taskTitle taskCourse dueISO priority notes tags estRaw ptsRaw
      gradeId nowISO =>
    exact Step.saveEdit editingTaskId taskTitle taskCourse dueISO priority notes tags estRaw
      ptsRaw gradeId nowISO
  | markDone id nowISO gradeId => exact Step.markDone id nowISO gradeId
  | undo id nowISO gradeId => exact Step.undo id nowISO gradeId
  | confirm id entered nowISO gradeId => exact Step.confirm id entered nowISO gradeId
  | delTask id => exact Step.delTask id
  | newCourse courseId courseNameInput courseColor creditsRaw =>
    exact Step.newCourse courseId courseNameInput courseColor creditsRaw
  | newGrade gradeId gradeName gradeCourse earned total weightRaw dueISO nowISO =>
    exact Step.newGrade gradeId gradeName gradeCourse earned total weightRaw dueISO nowISO
  | delCourse id => exact Step.delCourse id

theorem reachable_mono {s : AppState} (h : Reachable false s) : Reachable true s := by
  induction h with
  | refl => exact Relation.ReflTransGen.refl
  | tail _ hstep ih => exact Relation.ReflTransGen.tail ih (step_mono hstep)

/-! ## C5 — the task point-field invariant (amended) -/

/-- C5 (amended): in every document reachable from the default document by
entity and completion-flow operations, `pointsEarned` is defined only when the
task is done; whenever `pointsEarned` and `pointsPossible` are both defined,
`0 ≤ pointsEarned ≤ pointsPossible`; and `completedISO` is defined iff the
task is done.  (The original claim also required `pointsPossible` to be
defined whenever `pointsEarned` is — that part is false, see the
counterexample.) -/
theorem task_points_invariant (s : AppState) (h : Reachable true s) :
    ∀ t ∈ s.tasks,
      (¬ t.pointsEarned = none → t.done = true) ∧
      (∀ pe pp, t.pointsEarned = some pe → t.pointsPossible = some pp →
        0 ≤ pe ∧ pe ≤ pp) ∧
      (¬ t.completedISO = none ↔ t.done = true) := by
  have hinv := inv_reachable h
  intro t ht
  exact ⟨hinv.pe_done t ht, hinv.pe_range t ht, hinv.ciso t ht⟩

theorem task_points_invariant_witness :
    Reachable true exDoneDoc ∧
    ∀ t ∈ exDoneDoc.tasks,
      (¬ t.pointsEarned = none → t.done = true) ∧
      (∀ pe pp, t.pointsEarned = some pe → t.pointsPossible = some pp →
        0 ≤ pe ∧ pe ≤ pp) ∧
      (¬ t.completedISO = none ↔ t.done = true) :=
  have hr : Reachable true exDoneDoc :=
    Relation.ReflTransGen.tail
      (Relation.ReflTransGen.tail Relation.ReflTransGen.refl
        (Step.saveNew "t1" "Essay" none none .medium none none none (some 20) "now0"
          (by simp [DEFAULT_STATE]) (by simp [DEFAULT_STATE])))
      (Step.confirm "t1" (some 25) "now1" "g1")
  ⟨hr, task_points_invariant exDoneDoc hr⟩

/-- C5, counterexample to the claim as stated: editing a done scored task and
clearing its points field leaves `pointsEarned` defined while `pointsPossible`
becomes undefined, so "`pointsEarned` defined only when `done` and
`pointsPossible` defined" fails on a reachable document. -/
theorem task_points_cex :
    Reachable true exClearPointsDoc ∧
    ∃ t ∈ exClearPointsDoc.tasks, t.done = true ∧ ¬ t.pointsEarned = none ∧
      t.pointsPossible = none := by
  constructor
  · exact
      Relation.ReflTransGen.tail
        (Relation.ReflTransGen.tail
          (Relation.ReflTransGen.tail Relation.ReflTransGen.refl
            (Step.saveNew "t1" "Essay" none none .medium none none none (some 20) "now0"
              (by simp [DEFAULT_STATE]) (by simp [DEFAULT_STATE])))
          (Step.confirm "t1" (some 15) "now1" "g1"))
        (Step.saveEdit "t1" "Essay" none none .medium none none none none "g2" "now2")
  · norm_num +decide [exClearPointsDoc, exDone15Doc, exTaskDoc, saveTaskEdit, confirmComplete,
      saveTaskNew, applyTaskDone, DEFAULT_STATE, clamp, round1, safeNum, jsRound, derivedItem,
      updateTaskFields, donePtsEarned, editNextEarned]

/-! ## C1 — derived grade items (amended) -/

/-- C1 (amended): in every document reachable from the default document by the
entity and completion-flow operations other than `deleteGrade`, a grade item
with `taskId = t` exists iff a task with id `t` exists that is done and has
`pointsPossible` defined and positive *and `pointsEarned` defined*; and every
grade item linked to a task mirrors that task's `pointsEarned`/`pointsPossible`
in `scoreEarned`/`scoreTotal`.  (The original claim fails in two ways: direct
`deleteGrade` removes a derived item while its task stays done, and a task
completed without points and then edited to have points is done with
`pointsPossible > 0` but has no grade item — see the counterexample.) -/
theorem derived_grade_link_invariant (s : AppState) (h : Reachable false s) :
    (∀ tid : String,
      (∃ g ∈ s.grades, g.taskId = some tid) ↔
      (∃ t ∈ s.tasks, t.id = tid ∧ t.done = true ∧ ¬ t.pointsEarned = none ∧
        ∃ pp, t.pointsPossible = some pp ∧ 0 < pp)) ∧
    (∀ g ∈ s.grades, ∀ t ∈ s.tasks, g.taskId = some t.id →
      ∃ pe pp, t.pointsEarned = some pe ∧ t.pointsPossible = some pp ∧
        g.scoreEarned = pe ∧ g.scoreTotal = pp) := by
  have hinv := invFull_reachable h
  constructor
  · intro tid
    constructor
    · rintro ⟨g, hg, hgt⟩
      obtain ⟨x, hx, hxid, hxdone, pe, pp, hxe, hxp, hppos, _, _⟩ := hinv.link g hg tid hgt
      exact ⟨x, hx, hxid, hxdone, by simp [hxe], pp, hxp, hppos⟩
    · rintro ⟨t, ht, rfl, hdone, hpe, pp, hpp, hpos⟩
      exact hinv.cover t ht hdone pp hpp hpos hpe
  · intro g hg t ht hgt
    obtain ⟨x, hx, hxid, _, pe, pp, hxe, hxp, _, hse, hst⟩ := hinv.link g hg t.id hgt
    have hxt : x = t := task_id_unique hinv.nodup hx ht hxid
    rw [hxt] at hxe hxp
    exact ⟨pe, pp, hxe, hxp, hse, hst⟩

theorem derived_grade_link_invariant_witness :
    Reachable false exDoneDoc ∧
    ((∀ tid : String,
      (∃ g ∈ exDoneDoc.grades, g.taskId = some tid) ↔
      (∃ t ∈ exDoneDoc.tasks, t.id = tid ∧ t.done = true ∧ ¬ t.pointsEarned = none ∧
        ∃ pp, t.pointsPossible = some pp ∧ 0 < pp)) ∧
    (∀ g ∈ exDoneDoc.grades, ∀ t ∈ exDoneDoc.tasks, g.taskId = some t.id →
      ∃ pe pp, t.pointsEarned = some pe ∧ t.pointsPossible = some pp ∧
        g.scoreEarned = pe ∧ g.scoreTotal = pp)) :=
  have hr : Reachable false exDoneDoc :=
    Relation.ReflTransGen.tail
      (Relation.ReflTransGen.tail Relation.ReflTransGen.refl
        (Step.saveNew "t1" "Essay" none none .medium none none none (some 20) "now0"
          (by simp [DEFAULT_STATE]) (by simp [DEFAULT_STATE])))
      (Step.confirm "t1" (some 25) "now1" "g1")
  ⟨hr, derived_grade_link_invariant exDoneDoc hr⟩

/-- C1, counterexample to the claim as stated: (a) after deleting the derived
grade item directly, the task "t1" is still done with `pointsPossible = 20 > 0`
but no grade item with `taskId = "t1"` exists; (b) even without `deleteGrade`,
completing a pointless task and then editing 20 points onto it yields a done
task with positive points and no grade item. -/
theorem derived_grade_link_cex :
    Reachable true exDelGradeDoc ∧
    (∃ t ∈ exDelGradeDoc.tasks, t.id = "t1" ∧ t.done = true ∧
      ∃ pp, t.pointsPossible = some pp ∧ 0 < pp) ∧
    exDelGradeDoc.grades = [] ∧
    Reachable false exLatePointsDoc ∧
    Reachable true exLatePointsDoc ∧
    (∃ t ∈ exLatePointsDoc.tasks, t.id = "t1" ∧ t.done = true ∧
      ∃ pp, t.pointsPossible = some pp ∧ 0 < pp) ∧
    exLatePointsDoc.grades = [] := by
  have hrB : Reachable false exLatePointsDoc :=
    Relation.ReflTransGen.tail
      (Relation.ReflTransGen.tail
        (Relation.ReflTransGen.tail Relation.ReflTransGen.refl
          (Step.saveNew "t1" "A" none none .medium none none none none "now0"
            (by simp [DEFAULT_STATE]) (by simp [DEFAULT_STATE])))
        (Step.markDone "t1" "now1" "g1"))
      (Step.saveEdit "t1" "A" none none .medium none none none (some 20) "g2" "now2")
  refine ⟨?_, ?_, ?_, hrB, reachable_mono hrB, ?_, ?_⟩
  · exact
      Relation.ReflTransGen.tail
        (Relation.ReflTransGen.tail
          (Relation.ReflTransGen.tail Relation.ReflTransGen.refl
            (Step.saveNew "t1" "Essay" none none .medium none none none (some 20) "now0"
              (by simp [DEFAULT_STATE]) (by simp [DEFAULT_STATE])))
          (Step.confirm "t1" (some 25) "now1" "g1"))
        (Step.delGrade "g1")
  · norm_num +decide [exDelGradeDoc, exDoneDoc, exTaskDoc, deleteGrade,
      confirmComplete, saveTaskNew, applyTaskDone, DEFAULT_STATE, clamp, round1, safeNum,
      jsRound, derivedItem, donePtsEarned]
  · norm_num +decide [exDelGradeDoc, exDoneDoc, exTaskDoc, deleteGrade, confirmComplete,
      saveTaskNew, applyTaskDone, DEFAULT_STATE, clamp, round1, safeNum, jsRound,
      derivedItem, donePtsEarned]
  · norm_num +decide [exLatePointsDoc, exDirectDoneDoc, exOpenDoc, saveTaskEdit,
      saveTaskNew, applyTaskDone, DEFAULT_STATE, clamp, derivedItem, donePtsEarned,
      updateTaskFields, editNextEarned]
  · norm_num +decide [exLatePointsDoc, exDirectDoneDoc, exOpenDoc, saveTaskEdit,
      saveTaskNew, applyTaskDone, DEFAULT_STATE, clamp, derivedItem, donePtsEarned,
      updateTaskFields, editNextEarned]

end Planner
